import Mathlib

/-!
Verification of the sprint-restructure pipeline core
(`scripts/sprint_restructure/`): document classifier, similarity
analyzer (union-find clustering), name resolver, structure proposer and
operation planner.  Python dicts are modelled as insertion-ordered
association lists, Python sets of strings as duplicate-free lists (or
`Finset String` where the source treats them purely as sets), floats as
rationals, and raising `ValueError` as returning `none`.  Freshly drawn
`uuid4` operation ids are modelled as values of a strictly increasing
counter (their only relevant property being uniqueness within a plan).
-/

set_option maxHeartbeats 1000000

/-- First-match lookup in an insertion-ordered association list
(Python `dict.get`). -/
def alGet {κ α : Type} [DecidableEq κ] (m : List (κ × α)) (k : κ) : Option α :=
  match m with
  | [] => none
  | (k', v) :: rest => if k' = k then some v else alGet rest k

/-- Update the value at a key in place if present, else append
(Python `dict.__setitem__`, which preserves insertion order). -/
def alSet {κ α : Type} [DecidableEq κ] (m : List (κ × α)) (k : κ) (v : α) :
    List (κ × α) :=
  match m with
  | [] => [(k, v)]
  | (k', v') :: rest =>
    if k' = k then (k', v) :: rest else (k', v') :: alSet rest k v

/-- Keys of an association list, in insertion order. -/
def alKeys {κ α : Type} (m : List (κ × α)) : List κ :=
  m.map Prod.fst

/-- Python `set.add` on a set modelled as a duplicate-free list. -/
def listInsert (s : List String) (x : String) : List String :=
  if x ∈ s then s else s ++ [x]

/-- Python whitespace class matched by the regex token for spaces. -/
def isPySpace (c : Char) : Bool :=
  c = ' ' || c = '\t' || c = '\n' || c = '\x0d' || c = '\x0b' || c = '\x0c'

/-- ASCII digit. -/
def isDigitCh (c : Char) : Bool :=
  '0' ≤ c && c ≤ '9'

/-- ASCII letter. -/
def isAlphaCh (c : Char) : Bool :=
  ('a' ≤ c && c ≤ 'z') || ('A' ≤ c && c ≤ 'Z')

/-- Regex word character `[A-Za-z0-9_]`. -/
def isWordCh (c : Char) : Bool :=
  isAlphaCh c || isDigitCh c || c = '_'

/-- Case-insensitive consumption of a literal (IGNORECASE matching). -/
def matchCI : List Char → List Char → Option (List Char)
  | [], s => some s
  | _ :: _, [] => none
  | p :: ps, c :: cs => if p.toLower = c.toLower then matchCI ps cs else none

/-- Drop a (possibly empty) run of whitespace characters. -/
def dropSpaces (s : List Char) : List Char :=
  s.dropWhile isPySpace

/-- Split off a maximal run of digits. -/
def takeDigits (s : List Char) : List Char × List Char :=
  (s.takeWhile isDigitCh, s.dropWhile isDigitCh)

/-- Substring containment on character lists
(Python `needle in haystack` for strings). -/
def containsSub (hay needle : List Char) : Bool :=
  match hay with
  | [] => needle.isEmpty
  | _ :: rest =>
    (needle.isPrefixOf hay) || containsSub rest needle

/-- Result of name resolution (`name_resolver.NameResolution`). -/
structure NameResolution where
  original_title : String
  resolved_title : String
  collision_avoided : Bool
  context_preserved : Bool
  source_context : Option String
deriving Repr, DecidableEq

/-- Result of collision detection (`name_resolver.CollisionCheck`). -/
structure CollisionCheck where
  has_collision : Bool
  conflicting_page_id : Option String := none
  conflicting_page_title : Option String := none
deriving Repr, DecidableEq

/-- State of `name_resolver.NameResolver`: configuration plus the two
per-folder title sets used for collision detection. -/
structure NameResolver where
  strategy : String := "append-parent-name"
  always_preserve_context : Bool := true
  existing_titles : List (String × List String) := []
  planned_titles : List (String × List String) := []
deriving Repr, DecidableEq

/-- Titles registered as already existing in a folder. -/
def NameResolver.existingOf (r : NameResolver) (folder : String) : List String :=
  (alGet r.existing_titles folder).getD []

/-- Titles planned so far in a folder during the current run. -/
def NameResolver.plannedOf (r : NameResolver) (folder : String) : List String :=
  (alGet r.planned_titles folder).getD []

/-- `NameResolver.register_existing_titles`. -/
def NameResolver.register_existing_titles (r : NameResolver) (folder_id : String)
    (titles : List String) : NameResolver :=
  { r with existing_titles :=
      alSet r.existing_titles folder_id (titles.foldl listInsert []) }

/-- A page record as consumed by the pipeline (Python dicts with
`id`, `title`, `body_storage`/`content`, `parent_id`, `parent_title`;
`dict.get` defaults are the empty string). -/
structure Page where
  id : String := ""
  title : String := ""
  body_storage : String := ""
  content : String := ""
  parent_id : String := ""
  parent_title : String := ""
deriving Repr, DecidableEq

/-- `page.get('body_storage', '') or page.get('content', '')`. -/
def Page.body (p : Page) : String :=
  if p.body_storage ≠ "" then p.body_storage else p.content

/-- `NameResolver.register_existing_pages`. -/
def NameResolver.register_existing_pages (r : NameResolver)
    (pages : List Page) : NameResolver :=
  pages.foldl
    (fun acc page =>
      if page.parent_id ≠ "" ∧ page.title ≠ "" then
        { acc with existing_titles :=
            (alSet acc.existing_titles page.parent_id
              (listInsert (acc.existingOf page.parent_id) page.title)) }
      else acc)
    r

/-- `NameResolver.reset_planned`. -/
def NameResolver.reset_planned (r : NameResolver) : NameResolver :=
  { r with planned_titles := [] }

/-- `NameResolver.check_collision`. -/
def NameResolver.check_collision (r : NameResolver) (title : String)
    (target_folder_id : String) : CollisionCheck :=
  if title ∈ r.existingOf target_folder_id ∨ title ∈ r.plannedOf target_folder_id then
    { has_collision := true, conflicting_page_title := some title }
  else
    { has_collision := false }

/-- Pattern `^Sprint\s*\d+\s*[-:]\s*` (IGNORECASE): a leading
"Sprint N -" / "Sprint N:" marker. -/
def ctxMarkerLeadingSprint (s : List Char) : Bool :=
  match matchCI "sprint".toList s with
  | none => false
  | some rest =>
    let rest := dropSpaces rest
    let (ds, rest) := takeDigits rest
    if ds.isEmpty then false
    else
      match dropSpaces rest with
      | c :: _ => c = '-' || c = ':'
      | [] => false

/-- Pattern `^\[Sprint\s*\d+\]\s*` (IGNORECASE): a leading bracketed
"[Sprint N]" marker. -/
def ctxMarkerBracketedSprint (s : List Char) : Bool :=
  match s with
  | '[' :: rest =>
    match matchCI "sprint".toList rest with
    | none => false
    | some rest =>
      let rest := dropSpaces rest
      let (ds, rest) := takeDigits rest
      if ds.isEmpty then false
      else
        match rest with
        | ']' :: _ => true
        | _ => false
  | _ => false

/-- One attempt of pattern `\(Sprint\s*\d+\)$` at a fixed start:
"(Sprint N)" extending exactly to the end of the string. -/
def ctxMarkerTrailingAt (s : List Char) : Bool :=
  match s with
  | '(' :: rest =>
    match matchCI "sprint".toList rest with
    | none => false
    | some rest =>
      let rest := dropSpaces rest
      let (ds, rest) := takeDigits rest
      if ds.isEmpty then false
      else
        match rest with
        | [')'] => true
        | _ => false
  | _ => false

/-- Pattern `\(Sprint\s*\d+\)$` searched at every start position. -/
def ctxMarkerTrailingSprint : List Char → Bool
  | [] => false
  | c :: rest => ctxMarkerTrailingAt (c :: rest) || ctxMarkerTrailingSprint rest

/-- `NameResolver.has_context`: the title matches one of the three
`CONTEXT_PATTERNS`. -/
def NameResolver.has_context (_r : NameResolver) (title : String) : Bool :=
  ctxMarkerLeadingSprint title.toList ||
  ctxMarkerBracketedSprint title.toList ||
  ctxMarkerTrailingSprint title.toList

/-- The candidate `f"{title} ({suffix})"` tried by `_add_suffix`. -/
def suffixCandidate (title : String) (suffix : Nat) : String :=
  title ++ " (" ++ toString suffix ++ ")"

/-- Loop of `NameResolver._add_suffix`: try suffixes upward from
`suffix`; after a failed attempt at 100 the Python raises `ValueError`
(modelled as `none`).  The fuel argument is an upper bound on the
remaining iterations and never runs out for the call below. -/
def addSuffixGo (all : List String) (title : String) : Nat → Nat → Option String
  | _, 0 => none
  | suffix, fuel + 1 =>
    let candidate := suffixCandidate title suffix
    if candidate ∈ all then
      if suffix + 1 > 100 then none
      else addSuffixGo all title (suffix + 1) fuel
    else some candidate

/-- `NameResolver._add_suffix`. -/
def NameResolver.add_suffix (r : NameResolver) (title : String)
    (target_folder_id : String) : Option String :=
  addSuffixGo (r.existingOf target_folder_id ++ r.plannedOf target_folder_id)
    title 2 99

/-- The `needs_context` flag computed by `resolve` (forced or
configured or collision-driven, suppressed when the title already
carries a context marker). -/
def NameResolver.needsContext (r : NameResolver) (original_title : String)
    (target_folder_id : String) (force_context : Bool) : Bool :=
  let collision := r.check_collision original_title target_folder_id
  let needs :=
    force_context || r.always_preserve_context || collision.has_collision
  if r.has_context original_title then false else needs

/-- The context-injection step of `resolve` (lines guarded by
`if needs_context and source_context:`): the possibly rewritten title,
the `context_preserved` flag, and the collision state used afterwards.
An empty context string is falsy in Python and skips the block. -/
def NameResolver.contextStep (r : NameResolver) (original_title : String)
    (target_folder_id : String) (source_context : Option String)
    (force_context : Bool) : String × Bool × CollisionCheck :=
  if r.needsContext original_title target_folder_id force_context &&
      (match source_context with
       | some ctx => ctx ≠ ""
       | none => false : Bool) then
    match source_context with
    | some ctx =>
      let t :=
        if r.strategy = "append-parent-name" then ctx ++ " - " ++ original_title
        else if r.strategy = "preserve-context" then
          "[" ++ ctx ++ "] " ++ original_title
        else original_title
      let preserved :=
        r.strategy = "append-parent-name" || r.strategy = "preserve-context"
      (t, preserved, r.check_collision t target_folder_id)
    | none =>
      (original_title, false, r.check_collision original_title target_folder_id)
  else
    (original_title, false, r.check_collision original_title target_folder_id)

/-- The state update of `resolve`: register the planned title. -/
def NameResolver.registerPlanned (r : NameResolver) (target_folder_id t : String) :
    NameResolver :=
  { r with planned_titles :=
      (alSet r.planned_titles target_folder_id
        (listInsert (r.plannedOf target_folder_id) t)) }

/-- `NameResolver.resolve`.  Returns the resolution together with the
updated resolver state; `none` models the `ValueError` raised on
suffix exhaustion. -/
def NameResolver.resolve (r : NameResolver) (_page_id : String)
    (original_title : String) (target_folder_id : String)
    (source_context : Option String := none) (force_context : Bool := false) :
    Option (NameResolution × NameResolver) :=
  let step :=
    r.contextStep original_title target_folder_id source_context force_context
  let resolved_title := step.1
  let context_preserved := step.2.1
  let collision := step.2.2
  let final : Option (String × Bool) :=
    if collision.has_collision then
      match r.add_suffix resolved_title target_folder_id with
      | none => none
      | some t => some (t, true)
    else some (resolved_title, false)
  match final with
  | none => none
  | some (t, avoided) =>
    some
      ({ original_title := original_title
         resolved_title := t
         collision_avoided := avoided
         context_preserved := context_preserved
         source_context := source_context },
       r.registerPlanned target_folder_id t)

/-- The arguments of one `resolve` call. -/
structure ResolveArgs where
  page_id : String
  original_title : String
  target_folder_id : String
  source_context : Option String := none
  force_context : Bool := false
deriving Repr, DecidableEq

/-- A sequence of `resolve` calls threading the resolver state (the
shape shared by `resolve_batch` and the proposer loop), returning each
call's arguments paired with its resolution. -/
def NameResolver.resolveAll (r : NameResolver) :
    List ResolveArgs → Option (List (ResolveArgs × NameResolution) × NameResolver)
  | [] => some ([], r)
  | a :: rest =>
    match r.resolve a.page_id a.original_title a.target_folder_id
        a.source_context a.force_context with
    | none => none
    | some (res, r') =>
      match r'.resolveAll rest with
      | none => none
      | some (out, r'') => some ((a, res) :: out, r'')

/-- Similarity comparison result between two pages
(`similarity_analyzer.SimilarityResult`). -/
structure SimilarityResult where
  page1_id : String
  page2_id : String
  page1_title : String
  page2_title : String
  title_similarity : ℚ
  content_similarity : ℚ
  combined_similarity : ℚ
deriving Repr, DecidableEq

/-- Group of similar pages (`similarity_analyzer.SimilarityGroup`). -/
structure SimilarityGroup where
  group_id : Nat
  page_ids : List String
  page_titles : List String
  avg_similarity : ℚ
  primary_page_id : Option String := none
  recommendation : String := "link"
deriving Repr, DecidableEq

/-- Union-Find over string keys (`similarity_analyzer.UnionFind`),
with dicts as insertion-ordered association lists. -/
structure UnionFind where
  parent : List (String × String) := []
  rank : List (String × Nat) := []
deriving Repr

/-- Recursion of `UnionFind.find` (path compression).  The Python
recursion terminates because parent chains are acyclic; the fuel
argument bounds the recursion depth and, as proved below, never runs
out on well-formed states for the fuel used by `UnionFind.find`. -/
def UnionFind.findA : Nat → UnionFind → String → String × UnionFind
  | 0, uf, x => (x, uf)
  | fuel + 1, uf, x =>
    let uf :=
      if alGet uf.parent x = none then
        { uf with parent := alSet uf.parent x x, rank := alSet uf.rank x 0 }
      else uf
    let p := (alGet uf.parent x).getD x
    if p = x then (x, uf)
    else
      let (r, uf') := UnionFind.findA fuel uf p
      (r, { uf' with parent := alSet uf'.parent x r })

/-- `UnionFind.find`: find the root of `x` with path compression,
inserting `x` as a fresh singleton when absent. -/
def UnionFind.find (uf : UnionFind) (x : String) : String × UnionFind :=
  UnionFind.findA (uf.parent.length + 1) uf x

/-- `UnionFind.union`: union by rank. -/
def UnionFind.union (uf : UnionFind) (x y : String) : UnionFind :=
  let s1 := uf.find x
  let rx := s1.1
  let s2 := s1.2.find y
  let ry := s2.1
  let uf2 := s2.2
  if rx = ry then uf2
  else
    let rkx := (alGet uf2.rank rx).getD 0
    let rky := (alGet uf2.rank ry).getD 0
    let rx' := if rkx < rky then ry else rx
    let ry' := if rkx < rky then rx else ry
    let uf3 := { uf2 with parent := alSet uf2.parent ry' rx' }
    let rkx2 := (alGet uf3.rank rx').getD 0
    let rky2 := (alGet uf3.rank ry').getD 0
    if rkx2 = rky2 then { uf3 with rank := alSet uf3.rank rx' (rkx2 + 1) }
    else uf3

/-- Loop of `UnionFind.get_groups`: group every key by its root,
threading the state mutated by `find`'s path compression. -/
def UnionFind.getGroupsGo :
    UnionFind → List String → List (String × List String) →
      List (String × List String) × UnionFind
  | uf, [], groups => (groups, uf)
  | uf, x :: rest, groups =>
    let s := uf.find x
    let root := s.1
    let groups' := alSet groups root ((alGet groups root).getD [] ++ [x])
    UnionFind.getGroupsGo s.2 rest groups'

/-- `UnionFind.get_groups`: all groups as root → members, iterating
keys in insertion order. -/
def UnionFind.get_groups (uf : UnionFind) :
    List (String × List String) × UnionFind :=
  UnionFind.getGroupsGo uf (alKeys uf.parent) []

/-- Configuration of `similarity_analyzer.SimilarityAnalyzer`. -/
structure SimilarityAnalyzer where
  title_weight : ℚ := 2/5
  content_weight : ℚ := 3/5
  link_threshold : ℚ := 7/10
  merge_threshold : ℚ := 17/20
deriving Repr

/-- `SimilarityAnalyzer.STOP_WORDS`. -/
def STOP_WORDS : List String :=
  ["the", "a", "an", "and", "or", "but", "in", "on", "at", "to", "for",
   "of", "with", "by", "from", "up", "about", "into", "through", "during",
   "sprint", "note", "notes", "doc", "document", "page"]

/-- Tail of `splitRuns`, accumulating the current (reversed) run. -/
def splitRunsGo (acc : List Char) : List Char → List (List Char)
  | [] => if acc.isEmpty then [] else [acc.reverse]
  | c :: rest =>
    if isWordCh c then splitRunsGo (c :: acc) rest
    else if acc.isEmpty then splitRunsGo [] rest
    else acc.reverse :: splitRunsGo [] rest

/-- Maximal runs of regex word characters in a character list. -/
def splitRuns (s : List Char) : List (List Char) :=
  splitRunsGo [] s

/-- `re.findall(r'\b[a-z0-9]+\b', text)` on an already lower-cased
text: the maximal word-character runs made up solely of `[a-z0-9]`
(a run containing `_` has no word boundary splitting it, so it
produces no match). -/
def findallWordTokens (s : List Char) : List String :=
  ((splitRuns s).filter (fun run => run.all (fun c => c ≠ '_'))).map
    (fun run => String.mk run)

/-- `SimilarityAnalyzer.tokenize`.  The Python returns an (unordered)
`set`; it is modelled as a `Finset`. -/
def SimilarityAnalyzer.tokenize (_an : SimilarityAnalyzer) (text : String)
    (remove_stopwords : Bool := true) : Finset String :=
  let words := (findallWordTokens (text.toList.map Char.toLower)).toFinset
  if remove_stopwords then words \ STOP_WORDS.toFinset else words

/-- `SimilarityAnalyzer.jaccard_similarity`. -/
def SimilarityAnalyzer.jaccard_similarity (_an : SimilarityAnalyzer)
    (set1 set2 : Finset String) : ℚ :=
  if set1 = ∅ ∧ set2 = ∅ then 0
  else
    let intersection : ℚ := (set1 ∩ set2).card
    let union : ℚ := (set1 ∪ set2).card
    if union > 0 then intersection / union else 0

/-- Stable insertion into a list sorted descending by `key`
(a later-arriving element goes after equals, as Python's stable
`sort(key=..., reverse=True)` does). -/
def insertDescBy {α κ : Type} [LinearOrder κ] (key : α → κ) (x : α) :
    List α → List α
  | [] => [x]
  | y :: ys => if key x ≤ key y then y :: insertDescBy key x ys else x :: y :: ys

/-- Stable descending sort by `key`, modelling Python's
`list.sort(key=..., reverse=True)`. -/
def sortDescBy {α κ : Type} [LinearOrder κ] (key : α → κ) (l : List α) :
    List α :=
  l.foldl (fun acc x => insertDescBy key x acc) []

/-- `SimilarityAnalyzer.extract_keywords`.  The longest-tokens cut
sorts Python's arbitrary set iteration order; the model fixes that
order to the lexicographic one before the stable length sort. -/
def SimilarityAnalyzer.extract_keywords (an : SimilarityAnalyzer)
    (content : String) (max_keywords : Nat := 50) : Finset String :=
  let tokens := an.tokenize content true
  let tokens := tokens.filter (fun t => 2 < t.length)
  if max_keywords < tokens.card then
    ((sortDescBy String.length (tokens.sort (· ≤ ·))).take max_keywords).toFinset
  else tokens

/-- `SimilarityAnalyzer.compare`. -/
def SimilarityAnalyzer.compare (an : SimilarityAnalyzer) (page1 page2 : Page) :
    SimilarityResult :=
  let title1 := page1.title
  let title2 := page2.title
  let content1 := page1.body
  let content2 := page2.body
  let title_sim := an.jaccard_similarity (an.tokenize title1) (an.tokenize title2)
  let content_sim :=
    if content1 ≠ "" ∧ content2 ≠ "" then
      an.jaccard_similarity (an.extract_keywords content1)
        (an.extract_keywords content2)
    else 0
  { page1_id := page1.id
    page2_id := page2.id
    page1_title := title1
    page2_title := title2
    title_similarity := title_sim
    content_similarity := content_sim
    combined_similarity :=
      title_sim * an.title_weight + content_sim * an.content_weight }

/-- All index pairs `i < j` of a list, in the nested-loop order of
`find_similar_pairs`. -/
def allPairs {α : Type} : List α → List (α × α)
  | [] => []
  | x :: rest => rest.map (fun y => (x, y)) ++ allPairs rest

/-- `SimilarityAnalyzer.find_similar_pairs`. -/
def SimilarityAnalyzer.find_similar_pairs (an : SimilarityAnalyzer)
    (pages : List Page) (threshold : Option ℚ := none) :
    List SimilarityResult :=
  let threshold := threshold.getD an.link_threshold
  let similar_pairs :=
    ((allPairs pages).map (fun pq => an.compare pq.1 pq.2)).filter
      (fun res => threshold ≤ res.combined_similarity)
  sortDescBy SimilarityResult.combined_similarity similar_pairs

/-- `tuple(sorted([a, b]))` for the `pair_similarities` keys. -/
def pairKey (a b : String) : String × String :=
  if a ≤ b then (a, b) else (b, a)

/-- `SimilarityAnalyzer._select_primary`: prefer the member with the
longest content, ties resolved by encounter order. -/
def SimilarityAnalyzer.select_primary (_an : SimilarityAnalyzer)
    (page_ids : List String) (page_lookup : List (String × Page)) : String :=
  let best := page_ids.foldl
    (fun acc pid =>
      let page := (alGet page_lookup pid).getD {}
      let content := page.body
      if acc.2 < content.length then (pid, content.length) else acc)
    (page_ids.headD "", 0)
  best.1

/-- Group-building loop of `group_similar`: skip singletons, average
the originally observed pairwise similarities, pick recommendation and
primary page. -/
def buildGroupsGo (an : SimilarityAnalyzer) (threshold : ℚ)
    (page_lookup : List (String × Page))
    (pair_similarities : List ((String × String) × ℚ)) :
    List (String × List String) → Nat → List SimilarityGroup
  | [], _ => []
  | (_root, member_ids) :: rest, group_id =>
    if member_ids.length < 2 then
      buildGroupsGo an threshold page_lookup pair_similarities rest group_id
    else
      let sims := (allPairs member_ids).filterMap
        (fun ij => alGet pair_similarities (pairKey ij.1 ij.2))
      let total_sim := sims.sum
      let pair_count := sims.length
      let avg_sim := if 0 < pair_count then total_sim / pair_count else threshold
      let titles := member_ids.map (fun pid => ((alGet page_lookup pid).getD {}).title)
      let recommendation := if an.merge_threshold ≤ avg_sim then "merge" else "link"
      let primary_id := an.select_primary member_ids page_lookup
      { group_id := group_id
        page_ids := member_ids
        page_titles := titles
        avg_similarity := avg_sim
        primary_page_id := some primary_id
        recommendation := recommendation } ::
        buildGroupsGo an threshold page_lookup pair_similarities rest (group_id + 1)

/-- `SimilarityAnalyzer.group_similar`. -/
def SimilarityAnalyzer.group_similar (an : SimilarityAnalyzer)
    (pages : List Page) (threshold : Option ℚ := none) :
    List SimilarityGroup :=
  let threshold := threshold.getD an.link_threshold
  let page_lookup := pages.foldl (fun m p => alSet m p.id p) []
  let similar_pairs := an.find_similar_pairs pages (some threshold)
  let uf0 : UnionFind := pages.foldl (fun uf p => (uf.find p.id).2) {}
  let step := similar_pairs.foldl
    (fun acc res =>
      (acc.1.union res.page1_id res.page2_id,
       alSet acc.2 (pairKey res.page1_id res.page2_id) res.combined_similarity))
    (uf0, ([] : List ((String × String) × ℚ)))
  let raw_groups := step.1.get_groups.1
  let groups := buildGroupsGo an threshold page_lookup step.2 raw_groups 0
  sortDescBy SimilarityGroup.avg_similarity groups

/-- Regex fragment language covering exactly the constructs used by the
classifier's `TITLE_PATTERNS` (IGNORECASE literals, character classes
with `*`, `+`, `?` and bounded repetition, optional groups, and the
word-boundary assertion). -/
inductive RE where
  | lit (s : String)
  | cls (p : Char → Bool)
  | many (p : Char → Bool)
  | many1 (p : Char → Bool)
  | rep (p : Char → Bool) (lo hi : Nat)
  | opt (r : RE)
  | seq (a b : RE)
  | wordB

/-- Case-insensitive literal consumption tracking the previously
consumed character (needed by the word-boundary assertion). -/
def matchLit : List Char → Option Char → List Char → List (Option Char × List Char)
  | [], prev, s => [(prev, s)]
  | _ :: _, _, [] => []
  | p :: ps, _, c :: cs =>
    if p.toLower = c.toLower then matchLit ps (some c) cs else []

/-- All states reachable by consuming zero or more characters of a
class (the `*` repetition, explored nondeterministically). -/
def manyStates (p : Char → Bool) : Option Char → List Char → List (Option Char × List Char)
  | prev, [] => [(prev, [])]
  | prev, c :: cs =>
    (prev, c :: cs) :: (if p c then manyStates p (some c) cs else [])

/-- All states reachable by consuming between `lo` and `hi` characters
of a class (bounded repetition `{lo,hi}`). -/
def repStates (p : Char → Bool) : Nat → Nat → Option Char → List Char →
    List (Option Char × List Char)
  | lo, hi, prev, s =>
    (if lo = 0 then [(prev, s)] else []) ++
      (match hi, s with
       | 0, _ => []
       | _ + 1, [] => []
       | hi' + 1, c :: cs =>
         if p c then repStates p (lo - 1) hi' (some c) cs else [])

/-- `\b`: exactly one side of the position is a word character. -/
def atWordBoundary (prev : Option Char) (rest : List Char) : Bool :=
  let a := match prev with | some c => isWordCh c | none => false
  let b := match rest with | c :: _ => isWordCh c | [] => false
  a ≠ b

/-- Backtracking matcher: all states reachable by matching `r` from a
given state. -/
def reRun : RE → Option Char × List Char → List (Option Char × List Char)
  | .lit s, st => matchLit s.toList st.1 st.2
  | .cls _, (_, []) => []
  | .cls p, (_, c :: cs) => if p c then [(some c, cs)] else []
  | .many p, st => manyStates p st.1 st.2
  | .many1 _, (_, []) => []
  | .many1 p, (_, c :: cs) => if p c then manyStates p (some c) cs else []
  | .rep p lo hi, st => repStates p lo hi st.1 st.2
  | .opt r, st => st :: reRun r st
  | .seq a b, st => (reRun a st).flatMap (reRun b)
  | .wordB, (prev, rest) => if atWordBoundary prev rest then [(prev, rest)] else []

/-- `re.search` for a fragment: try every start position (tracking the
preceding character for `\b`), succeeding if any position matches. -/
def reSearchGo (r : RE) : Option Char → List Char → Bool
  | prev, [] => !(reRun r (prev, [])).isEmpty
  | prev, c :: cs => !(reRun r (prev, c :: cs)).isEmpty || reSearchGo r (some c) cs

/-- Whether a compiled pattern occurs anywhere in the string. -/
def reSearch (r : RE) (s : String) : Bool :=
  reSearchGo r none s.toList

/-- `seq` of a list of fragments. -/
def reCat (l : List RE) : RE :=
  l.foldr RE.seq (.lit "")

/-- `[-\s]` / `[\s-]`. -/
def isDashWs (c : Char) : Bool :=
  c = '-' || isPySpace c

/-- Document type enumeration (`document_classifier.DocumentType`),
in declaration order. -/
inductive DocumentType where
  | SPRINT_REVIEW
  | DESIGN_NOTE
  | STORY_NOTE
  | MEETING_NOTES
  | RETROSPECTIVE
  | TECHNICAL_DOC
  | UNCATEGORIZED
deriving DecidableEq, Repr

/-- The `str` value of each enum member. -/
def DocumentType.value : DocumentType → String
  | .SPRINT_REVIEW => "sprint-review"
  | .DESIGN_NOTE => "design-note"
  | .STORY_NOTE => "story-note"
  | .MEETING_NOTES => "meeting-notes"
  | .RETROSPECTIVE => "retrospective"
  | .TECHNICAL_DOC => "technical-doc"
  | .UNCATEGORIZED => "uncategorized"

/-- Iteration order of `DocumentType` (Python enum declaration order,
which is also the insertion order of the `scores` dict). -/
def allDocumentTypes : List DocumentType :=
  [.SPRINT_REVIEW, .DESIGN_NOTE, .STORY_NOTE, .MEETING_NOTES,
   .RETROSPECTIVE, .TECHNICAL_DOC, .UNCATEGORIZED]

/-- `document_classifier.FOLDER_NAMES`. -/
def FOLDER_NAMES : DocumentType → String
  | .SPRINT_REVIEW => "01-Sprint-Reviews"
  | .DESIGN_NOTE => "02-Design-Notes"
  | .STORY_NOTE => "03-Story-Notes"
  | .MEETING_NOTES => "04-Meeting-Notes"
  | .RETROSPECTIVE => "05-Retrospectives"
  | .TECHNICAL_DOC => "06-Technical-Docs"
  | .UNCATEGORIZED => "99-Uncategorized"

/-- `DocumentClassifier.TITLE_PATTERNS`, compiled: each entry keeps the
source pattern string (reported in `matched_patterns`) with its
compiled fragment.  The Python dict has entries for the six concrete
types only; `UNCATEGORIZED` maps to the empty list. -/
def TITLE_PATTERNS : DocumentType → List (String × RE)
  | .SPRINT_REVIEW =>
    [("sprint\\s*\\d*\\s*review",
      reCat [.lit "sprint", .many isPySpace, .many isDigitCh, .many isPySpace, .lit "review"]),
     ("review\\s+of\\s+sprint",
      reCat [.lit "review", .many1 isPySpace, .lit "of", .many1 isPySpace, .lit "sprint"]),
     ("burndown", .lit "burndown"),
     ("sprint\\s*\\d*\\s*summary",
      reCat [.lit "sprint", .many isPySpace, .many isDigitCh, .many isPySpace, .lit "summary"]),
     ("velocity\\s+report", reCat [.lit "velocity", .many1 isPySpace, .lit "report"]),
     ("sprint\\s+report", reCat [.lit "sprint", .many1 isPySpace, .lit "report"])]
  | .DESIGN_NOTE =>
    [("design\\s*note", reCat [.lit "design", .many isPySpace, .lit "note"]),
     ("architecture", .lit "architecture"),
     ("rfc\\b", reCat [.lit "rfc", .wordB]),
     ("technical\\s*design", reCat [.lit "technical", .many isPySpace, .lit "design"]),
     ("system\\s*design", reCat [.lit "system", .many isPySpace, .lit "design"]),
     ("design\\s*doc", reCat [.lit "design", .many isPySpace, .lit "doc"]),
     ("hld\\b", reCat [.lit "hld", .wordB]),
     ("lld\\b", reCat [.lit "lld", .wordB])]
  | .STORY_NOTE =>
    [("story[-\\s]*\\d+", reCat [.lit "story", .many isDashWs, .many1 isDigitCh]),
     ("[A-Z]{2,10}-\\d+",
      reCat [.rep isAlphaCh 2 10, .cls (fun c => c = '-'), .many1 isDigitCh]),
     ("user\\s*story", reCat [.lit "user", .many isPySpace, .lit "story"]),
     ("feature\\s*spec", reCat [.lit "feature", .many isPySpace, .lit "spec"]),
     ("requirements?\\s+doc",
      reCat [.lit "requirement", .opt (.lit "s"), .many1 isPySpace, .lit "doc"])]
  | .MEETING_NOTES =>
    [("meeting\\s*note", reCat [.lit "meeting", .many isPySpace, .lit "note"]),
     ("standup", .lit "standup"),
     ("stand-up", .lit "stand-up"),
     ("sync\\s*meeting", reCat [.lit "sync", .many isPySpace, .lit "meeting"]),
     ("weekly\\s*sync", reCat [.lit "weekly", .many isPySpace, .lit "sync"]),
     ("daily\\s*sync", reCat [.lit "daily", .many isPySpace, .lit "sync"]),
     ("scrum\\s*meeting", reCat [.lit "scrum", .many isPySpace, .lit "meeting"]),
     ("planning\\s*meeting", reCat [.lit "planning", .many isPySpace, .lit "meeting"]),
     ("grooming", .lit "grooming"),
     ("refinement", .lit "refinement")]
  | .RETROSPECTIVE =>
    [("retro(spective)?", reCat [.lit "retro", .opt (.lit "spective")]),
     ("sprint\\s*\\d*\\s*retro",
      reCat [.lit "sprint", .many isPySpace, .many isDigitCh, .many isPySpace, .lit "retro"]),
     ("lessons?\\s*learned",
      reCat [.lit "lesson", .opt (.lit "s"), .many isPySpace, .lit "learned"]),
     ("post[\\s-]*mortem", reCat [.lit "post", .many isDashWs, .lit "mortem"]),
     ("what\\s+went\\s+well",
      reCat [.lit "what", .many1 isPySpace, .lit "went", .many1 isPySpace, .lit "well"])]
  | .TECHNICAL_DOC =>
    [("api\\s*doc", reCat [.lit "api", .many isPySpace, .lit "doc"]),
     ("guide", .lit "guide"),
     ("setup\\s*instruction", reCat [.lit "setup", .many isPySpace, .lit "instruction"]),
     ("how[\\s-]*to", reCat [.lit "how", .many isDashWs, .lit "to"]),
     ("tutorial", .lit "tutorial"),
     ("reference\\s*doc", reCat [.lit "reference", .many isPySpace, .lit "doc"]),
     ("developer\\s*guide", reCat [.lit "developer", .many isPySpace, .lit "guide"]),
     ("user\\s*manual", reCat [.lit "user", .many isPySpace, .lit "manual"]),
     ("onboarding", .lit "onboarding"),
     ("installation", .lit "installation")]
  | .UNCATEGORIZED => []

/-- `DocumentClassifier.CONTENT_KEYWORDS` (no entry for
`UNCATEGORIZED` in the source dict). -/
def CONTENT_KEYWORDS : DocumentType → List String
  | .SPRINT_REVIEW =>
    ["velocity", "burndown", "story points", "completed", "carried over",
     "sprint goal", "done", "in progress", "demo", "showcase",
     "achievements", "delivered", "sprint metrics"]
  | .DESIGN_NOTE =>
    ["architecture", "component", "interface", "module", "diagram",
     "sequence", "class diagram", "flow chart", "design decision",
     "tradeoff", "alternative", "proposed solution", "technical approach"]
  | .STORY_NOTE =>
    ["acceptance criteria", "user story", "as a user", "given when then",
     "scenario", "requirement", "feature", "epic", "subtask",
     "definition of done", "dod", "acceptance test"]
  | .MEETING_NOTES =>
    ["attendees", "agenda", "action items", "decisions", "discussion",
     "follow up", "next steps", "minutes", "blockers", "updates",
     "participants", "notes from"]
  | .RETROSPECTIVE =>
    ["went well", "improve", "action items", "kudos", "keep doing",
     "stop doing", "start doing", "feedback", "team health",
     "mad sad glad", "lessons learned"]
  | .TECHNICAL_DOC =>
    ["installation", "prerequisites", "configuration", "api", "endpoint",
     "parameters", "response", "example", "usage", "command",
     "step by step", "getting started", "troubleshooting"]
  | .UNCATEGORIZED => []

/-- Lower-case a string (ASCII, as exercised by the inputs). -/
def strLower (s : String) : String :=
  String.mk (s.toList.map Char.toLower)

/-- One attempt of `\[?Scaled[-\s]*Sprint[-\s]*(\d+)\]?` at a fixed
start position, returning the captured digits. -/
def scaledSprintAt (s : List Char) : Option String :=
  let s := match s with | '[' :: r => r | _ => s
  match matchCI "scaled".toList s with
  | none => none
  | some r =>
    let r := r.dropWhile isDashWs
    match matchCI "sprint".toList r with
    | none => none
    | some r =>
      let r := r.dropWhile isDashWs
      let ds := r.takeWhile isDigitCh
      if ds.isEmpty then none else some (String.mk ds)

/-- One attempt of `\[?Sprint[-\s]*(\d+)\]?` at a fixed start. -/
def sprintBracketAt (s : List Char) : Option String :=
  let s := match s with | '[' :: r => r | _ => s
  match matchCI "sprint".toList s with
  | none => none
  | some r =>
    let r := r.dropWhile isDashWs
    let ds := r.takeWhile isDigitCh
    if ds.isEmpty then none else some (String.mk ds)

/-- One attempt of `Sprint\s+(\d+)` at a fixed start. -/
def sprintSpaceAt (s : List Char) : Option String :=
  match matchCI "sprint".toList s with
  | none => none
  | some r =>
    let spaces := r.takeWhile isPySpace
    if spaces.isEmpty then none
    else
      let ds := (r.dropWhile isPySpace).takeWhile isDigitCh
      if ds.isEmpty then none else some (String.mk ds)

/-- One attempt of `S(\d+)` at a fixed start. -/
def sNumAt (s : List Char) : Option String :=
  match s with
  | c :: r =>
    if c.toLower = 's' then
      let ds := r.takeWhile isDigitCh
      if ds.isEmpty then none else some (String.mk ds)
    else none
  | [] => none

/-- `re.search` capture: try a fixed-position matcher at every start
position from the left (leftmost match wins). -/
def scanFirst (f : List Char → Option String) : List Char → Option String
  | [] => none
  | c :: rest =>
    match f (c :: rest) with
    | some x => some x
    | none => scanFirst f rest

/-- `DocumentClassifier._extract_sprint`: the four `SPRINT_PATTERNS`
tried in order, returning `"Sprint {N}"` for the first hit. -/
def extract_sprint (text : String) : Option String :=
  if text = "" then none
  else
    let cs := text.toList
    let hit :=
      match scanFirst scaledSprintAt cs with
      | some d => some d
      | none =>
        match scanFirst sprintBracketAt cs with
        | some d => some d
        | none =>
          match scanFirst sprintSpaceAt cs with
          | some d => some d
          | none => scanFirst sNumAt cs
    hit.map (fun d => "Sprint " ++ d)

/-- Classification result
(`document_classifier.ClassificationResult`). -/
structure ClassificationResult where
  doc_type : DocumentType
  confidence : ℚ
  matched_patterns : List String
  matched_keywords : List String
  source_sprint : Option String := none
deriving DecidableEq, Repr

/-- Configuration of `document_classifier.DocumentClassifier`. -/
structure DocumentClassifier where
  min_confidence : ℚ := 3/10
deriving Repr

/-- First title pattern of a type matching the title, if any (the
`break` in `classify` keeps only the first match per type). -/
def titleMatchFirst (t : DocumentType) (title : String) : Option String :=
  ((TITLE_PATTERNS t).find? (fun pr => reSearch pr.2 title)).map (fun pr => pr.1)

/-- Content keywords of a type found in the lower-cased content. -/
def keywordHits (t : DocumentType) (content : String) : List String :=
  (CONTENT_KEYWORDS t).filter
    (fun kw => containsSub (strLower content).toList (strLower kw).toList)

/-- Per-type score accumulated by `classify`: 0.6 for a title pattern
hit plus the keyword score (count / 5 capped at 1, scaled by 0.4),
the latter only when content is nonempty. -/
def scoreOf (title content : String) (t : DocumentType) : ℚ :=
  (if (titleMatchFirst t title).isSome then 3/5 else 0) +
    (if content ≠ "" then
      (let keyword_count := (keywordHits t content).length
       if 0 < keyword_count then min ((keyword_count : ℚ) / 5) 1 * (2/5) else 0)
     else 0)

/-- Python `max(scores, key=scores.get)`: first element with the
maximal value, in iteration order. -/
def pickBest (f : DocumentType → ℚ) : List DocumentType → DocumentType → DocumentType
  | [], best => best
  | t :: rest, best => pickBest f rest (if f best < f t then t else best)

/-- The argmax type of `classify` before thresholding. -/
def bestType (title content : String) : DocumentType :=
  pickBest (scoreOf title content) allDocumentTypes.tail .SPRINT_REVIEW

/-- The raw best score of `classify` before thresholding. -/
def bestRawScore (title content : String) : ℚ :=
  scoreOf title content (bestType title content)

/-- `DocumentClassifier.classify`. -/
def DocumentClassifier.classify (cl : DocumentClassifier) (title : String)
    (content : String := "") (parent_title : String := "") :
    ClassificationResult :=
  let source_sprint :=
    match extract_sprint title with
    | some s => some s
    | none => extract_sprint parent_title
  let best_score := bestRawScore title content
  let forced := best_score < cl.min_confidence
  let bt := if forced then DocumentType.UNCATEGORIZED else bestType title content
  let bs := if forced then 0 else best_score
  { doc_type := bt
    confidence := min bs 1
    matched_patterns := (titleMatchFirst bt title).toList
    matched_keywords := keywordHits bt content
    source_sprint := source_sprint }

/-- `DocumentClassifier.get_folder_name`. -/
def DocumentClassifier.get_folder_name (_cl : DocumentClassifier)
    (doc_type : DocumentType) : String :=
  FOLDER_NAMES doc_type

/-- `DocumentClassifier.classify_batch`. -/
def DocumentClassifier.classify_batch (cl : DocumentClassifier)
    (pages : List Page) : List (Page × ClassificationResult) :=
  pages.map (fun p => (p, cl.classify p.title p.body p.parent_title))

/-- `DocumentClassifier.get_classification_summary`. -/
def DocumentClassifier.get_classification_summary (_cl : DocumentClassifier)
    (results : List (Page × ClassificationResult)) : List (String × Nat) :=
  results.foldl
    (fun m pr => alSet m pr.2.doc_type.value ((alGet m pr.2.doc_type.value).getD 0 + 1))
    (allDocumentTypes.map (fun t => (t.value, 0)))

/-- Folder to be created (`structure_proposer.FolderCreation`). -/
structure FolderCreation where
  folder_name : String
  parent_id : String
  doc_type : Option DocumentType := none
  order : Nat := 0
deriving Repr, DecidableEq

/-- Page move operation (`structure_proposer.PageMove`). -/
structure PageMove where
  page_id : String
  original_title : String
  resolved_title : String
  source_parent_id : String
  source_parent_title : String
  target_folder_name : String
  target_folder_id : Option String := none
  doc_type : DocumentType := .UNCATEGORIZED
  confidence : ℚ := 0
  name_changed : Bool := false
deriving Repr, DecidableEq

/-- Suggestion to link related pages
(`structure_proposer.LinkSuggestion`). -/
structure LinkSuggestion where
  page_ids : List String
  page_titles : List String
  similarity : ℚ
  reason : String := "Similar content detected"
deriving Repr, DecidableEq

/-- Original folder to archive (`structure_proposer.ArchiveMove`). -/
structure ArchiveMove where
  folder_id : String
  folder_title : String
  new_title : String
  target_archive_id : Option String := none
deriving Repr, DecidableEq

/-- An existing folder record (dict with `id` and `title`). -/
structure Folder where
  id : String := ""
  title : String := ""
deriving Repr, DecidableEq

/-- Complete restructuring proposal
(`structure_proposer.RestructureProposal`). -/
structure RestructureProposal where
  parent_id : String
  parent_title : String
  space_id : String
  folders_to_create : List FolderCreation := []
  pages_to_move : List PageMove := []
  folders_to_archive : List ArchiveMove := []
  link_suggestions : List LinkSuggestion := []
  total_pages : Nat := 0
  pages_by_type : List (String × Nat) := []
  collision_resolutions : Nat := 0
  context_preservations : Nat := 0
deriving Repr, DecidableEq

/-- `StructureProposer.TARGET_FOLDERS`. -/
def TARGET_FOLDERS : List (String × Option DocumentType × Nat) :=
  [("01-Sprint-Reviews", some .SPRINT_REVIEW, 1),
   ("02-Design-Notes", some .DESIGN_NOTE, 2),
   ("03-Story-Notes", some .STORY_NOTE, 3),
   ("04-Meeting-Notes", some .MEETING_NOTES, 4),
   ("05-Retrospectives", some .RETROSPECTIVE, 5),
   ("06-Technical-Docs", some .TECHNICAL_DOC, 6),
   ("99-Archive", none, 99),
   ("99-Uncategorized", some .UNCATEGORIZED, 100)]

/-- `self.type_to_folder`: the dict comprehension over
`TARGET_FOLDERS` keeping entries with a document type. -/
def type_to_folder : List (DocumentType × String) :=
  TARGET_FOLDERS.foldl
    (fun m e =>
      match e.2.1 with
      | some dt => alSet m dt e.1
      | none => m)
    []

/-- `self.type_to_folder.get(doc_type, "99-Uncategorized")`. -/
def folderNameFor (t : DocumentType) : String :=
  (alGet type_to_folder t).getD "99-Uncategorized"

/-- Pattern `^\[?Scaled[-\s]*Sprint` (IGNORECASE, anchored). -/
def sprintFolderScaled (s : List Char) : Bool :=
  let s := match s with | '[' :: r => r | _ => s
  match matchCI "scaled".toList s with
  | none => false
  | some r =>
    let r := r.dropWhile isDashWs
    (matchCI "sprint".toList r).isSome

/-- Pattern `^\[?Sprint[-\s]*\d+\]?$` (IGNORECASE, fully anchored). -/
def sprintFolderNumbered (s : List Char) : Bool :=
  let s := match s with | '[' :: r => r | _ => s
  match matchCI "sprint".toList s with
  | none => false
  | some r =>
    let r := r.dropWhile isDashWs
    let ds := r.takeWhile isDigitCh
    if ds.isEmpty then false
    else
      match r.dropWhile isDigitCh with
      | [] => true
      | [']'] => true
      | _ => false

/-- `StructureProposer._is_sprint_folder`. -/
def is_sprint_folder (title : String) : Bool :=
  sprintFolderScaled title.toList || sprintFolderNumbered title.toList

/-- Configuration of `structure_proposer.StructureProposer`. -/
structure StructureProposer where
  classifier : DocumentClassifier := {}
  name_resolver : NameResolver := {}
  similarity_analyzer : SimilarityAnalyzer := {}
deriving Repr

/-- The target-folder id used by `propose` for a folder name: the
first existing folder with that title (if its id is truthy), else the
`"NEW:"` placeholder. -/
def targetFolderIdFor (existing_folders : List Folder) (folder_name : String) :
    String :=
  match existing_folders.find? (fun f => f.title = folder_name) with
  | some f => if f.id = "" then "NEW:" ++ folder_name else f.id
  | none => "NEW:" ++ folder_name

/-- Step 4 of `propose`: bucket classified pages by target folder
name, in encounter order. -/
def groupByFolder (classified : List (Page × ClassificationResult)) :
    List (String × List (Page × ClassificationResult)) :=
  classified.foldl
    (fun m pc =>
      let fn := folderNameFor pc.2.doc_type
      alSet m fn ((alGet m fn).getD [] ++ [pc]))
    []

/-- Inner loop of step 5 of `propose`: resolve every page of one
folder bucket, building its `PageMove`s and accumulating the collision
and context counters. -/
def resolveGroup (r : NameResolver) (tid fname : String) :
    List (Page × ClassificationResult) →
      Option (List PageMove × NameResolver × Nat × Nat)
  | [] => some ([], r, 0, 0)
  | (page, cls) :: rest =>
    match r.resolve page.id page.title tid cls.source_sprint false with
    | none => none
    | some (res, r') =>
      match resolveGroup r' tid fname rest with
      | none => none
      | some (moves, r'', c, p) =>
        let move : PageMove :=
          { page_id := page.id
            original_title := page.title
            resolved_title := res.resolved_title
            source_parent_id := page.parent_id
            source_parent_title := page.parent_title
            target_folder_name := fname
            target_folder_id :=
              if tid.startsWith "NEW:" then none else some tid
            doc_type := cls.doc_type
            confidence := cls.confidence
            name_changed := res.original_title ≠ res.resolved_title }
        some (move :: moves, r'',
          c + (if res.collision_avoided then 1 else 0),
          p + (if res.context_preserved then 1 else 0))

/-- Outer loop of step 5 of `propose` over the folder buckets. -/
def resolveGroups (r : NameResolver) (efs : List Folder) :
    List (String × List (Page × ClassificationResult)) →
      Option (List PageMove × NameResolver × Nat × Nat)
  | [] => some ([], r, 0, 0)
  | (fname, plist) :: rest =>
    let tid := targetFolderIdFor efs fname
    match resolveGroup r tid fname plist with
    | none => none
    | some (moves, r', c, p) =>
      match resolveGroups r' efs rest with
      | none => none
      | some (moves2, r'', c2, p2) =>
        some (moves ++ moves2, r'', c + c2, p + p2)

/-- `StructureProposer.propose`.  Returns `none` when a name
resolution raises (suffix exhaustion) — proposal generation is
all-or-nothing. -/
def StructureProposer.propose (sp : StructureProposer)
    (parent_id parent_title space_id : String) (pages : List Page)
    (existing_folders : List Folder := []) : Option RestructureProposal :=
  let existing_folder_names := existing_folders.map Folder.title
  let folders_to_create :=
    (TARGET_FOLDERS.filter (fun e => e.1 ∉ existing_folder_names)).map
      (fun e =>
        { folder_name := e.1, parent_id := parent_id, doc_type := e.2.1,
          order := e.2.2 : FolderCreation })
  let classified := sp.classifier.classify_batch pages
  let r0 := (sp.name_resolver.register_existing_pages pages).reset_planned
  let folder_pages := groupByFolder classified
  match resolveGroups r0 existing_folders folder_pages with
  | none => none
  | some (moves, _, collisions, contexts) =>
    let folders_to_archive :=
      (existing_folders.filter (fun f => is_sprint_folder f.title)).map
        (fun f =>
          { folder_id := f.id, folder_title := f.title,
            new_title := "[ARCHIVED] " ++ f.title : ArchiveMove })
    let similar_groups := sp.similarity_analyzer.group_similar pages
    let link_suggestions :=
      (similar_groups.filter (fun g => g.recommendation = "link")).map
        (fun g =>
          { page_ids := g.page_ids, page_titles := g.page_titles,
            similarity := g.avg_similarity : LinkSuggestion })
    some
      { parent_id := parent_id
        parent_title := parent_title
        space_id := space_id
        folders_to_create := folders_to_create
        pages_to_move := moves
        folders_to_archive := folders_to_archive
        link_suggestions := link_suggestions
        total_pages := pages.length
        pages_by_type := sp.classifier.get_classification_summary classified
        collision_resolutions := collisions
        context_preservations := contexts }

/-- A planned operation ready for the `content_operations` table
(`operation_planner.PlannedOperation`).  Operation ids (`uuid4` in the
source) are modelled as values of a strictly increasing counter. -/
structure PlannedOperation where
  operation_type : String
  target_type : String
  target_ids : List String
  operation_data : List (String × String)
  preview_data : List (String × String) := []
  depends_on : List Nat := []
  operation_id : Nat
deriving Repr, DecidableEq

/-- Complete plan of operations (`operation_planner.OperationPlan`). -/
structure OperationPlan where
  proposal : RestructureProposal
  operations : List PlannedOperation := []
  folder_operations : List PlannedOperation := []
  move_operations : List PlannedOperation := []
  archive_operations : List PlannedOperation := []
  link_operations : List PlannedOperation := []
deriving Repr, DecidableEq

/-- `OperationPlan.total_operations`. -/
def OperationPlan.total_operations (plan : OperationPlan) : Nat :=
  plan.operations.length

/-- Folder-creation operations of `create_plan` (step 1), threading
the `folder_op_ids` map (later assignments overwrite earlier ones, as
for the Python dict) and the next fresh id. -/
def mkFolderOps (proposal : RestructureProposal) :
    List FolderCreation → Nat → List (String × Nat) →
      List PlannedOperation × List (String × Nat) × Nat
  | [], n, ids => ([], ids, n)
  | folder :: rest, n, ids =>
    let op : PlannedOperation :=
      { operation_type := "create_folder"
        target_type := "confluence"
        target_ids := [proposal.parent_id]
        operation_data :=
          [("parent_id", folder.parent_id), ("folder_name", folder.folder_name),
           ("space_id", proposal.space_id), ("order", toString folder.order)]
        preview_data :=
          [("action", "create"),
           ("path", proposal.parent_title ++ "/" ++ folder.folder_name)]
        operation_id := n }
    let next := mkFolderOps proposal rest (n + 1) (alSet ids folder.folder_name n)
    (op :: next.1, next.2.1, next.2.2)

/-- `moves_by_folder`: page moves bucketed by target folder name in
encounter order (step 2 of `create_plan`). -/
def movesByFolder (moves : List PageMove) : List (String × List PageMove) :=
  moves.foldl
    (fun m mv =>
      alSet m mv.target_folder_name ((alGet m mv.target_folder_name).getD [] ++ [mv]))
    []

/-- Move ("restructure") operations of `create_plan`, one per target
folder bucket, each depending on that folder's creation operation when
the folder is new. -/
def mkMoveOps (proposal : RestructureProposal)
    (folder_op_ids : List (String × Nat)) :
    List (String × List PageMove) → Nat → List PlannedOperation × Nat
  | [], n => ([], n)
  | (folder_name, moves) :: rest, n =>
    let depends_on :=
      match alGet folder_op_ids folder_name with
      | some fid => [fid]
      | none => []
    let first_folder_id :=
      match moves with
      | [] => ""
      | mv :: _ => mv.target_folder_id.getD ""
    let op : PlannedOperation :=
      { operation_type := "restructure"
        target_type := "confluence"
        target_ids := moves.map PageMove.page_id
        operation_data :=
          [("target_folder_name", folder_name),
           ("target_folder_id", first_folder_id),
           ("parent_id", proposal.parent_id)]
        preview_data :=
          [("action", "move"), ("target_folder", folder_name),
           ("page_count", toString moves.length),
           ("name_changes", toString (moves.filter PageMove.name_changed).length)]
        depends_on := depends_on
        operation_id := n }
    let next := mkMoveOps proposal folder_op_ids rest (n + 1)
    (op :: next.1, next.2)

/-- Archive operations of `create_plan`: each depends on all move
operations plus, if present, the archive-folder creation. -/
def mkArchiveOps (move_op_ids : List Nat) (archive_folder_op_id : Option Nat) :
    List ArchiveMove → Nat → List PlannedOperation × Nat
  | [], n => ([], n)
  | archive :: rest, n =>
    let depends_on :=
      match archive_folder_op_id with
      | some fid => move_op_ids ++ [fid]
      | none => move_op_ids
    let op : PlannedOperation :=
      { operation_type := "archive"
        target_type := "confluence"
        target_ids := [archive.folder_id]
        operation_data :=
          [("folder_id", archive.folder_id),
           ("original_title", archive.folder_title),
           ("new_title", archive.new_title),
           ("move_to_archive", "true"),
           ("archive_folder_name", "99-Archive")]
        preview_data :=
          [("action", "archive"), ("from", archive.folder_title),
           ("to", archive.new_title)]
        depends_on := depends_on
        operation_id := n }
    let next := mkArchiveOps move_op_ids archive_folder_op_id rest (n + 1)
    (op :: next.1, next.2)

/-- Link operations of `create_plan`: each depends on all move
operations. -/
def mkLinkOps (move_op_ids : List Nat) :
    List LinkSuggestion → Nat → List PlannedOperation × Nat
  | [], n => ([], n)
  | suggestion :: rest, n =>
    let op : PlannedOperation :=
      { operation_type := "add_link"
        target_type := "confluence"
        target_ids := suggestion.page_ids
        operation_data :=
          [("link_type", "related"), ("reason", suggestion.reason)]
        preview_data := [("action", "link")]
        depends_on := move_op_ids
        operation_id := n }
    let next := mkLinkOps move_op_ids rest (n + 1)
    (op :: next.1, next.2)

/-- `OperationPlanner.create_plan`. -/
def OperationPlanner.create_plan (proposal : RestructureProposal) :
    OperationPlan :=
  let f := mkFolderOps proposal proposal.folders_to_create 0 []
  let folderOps := f.1
  let folder_op_ids := f.2.1
  let groups := movesByFolder proposal.pages_to_move
  let m := mkMoveOps proposal folder_op_ids groups f.2.2
  let moveOps := m.1
  let move_op_ids := moveOps.map PlannedOperation.operation_id
  let archive_folder_op_id := alGet folder_op_ids "99-Archive"
  let a := mkArchiveOps move_op_ids archive_folder_op_id
    proposal.folders_to_archive m.2
  let archiveOps := a.1
  let l := mkLinkOps move_op_ids proposal.link_suggestions a.2
  let linkOps := l.1
  { proposal := proposal
    operations := folderOps ++ moveOps ++ archiveOps ++ linkOps
    folder_operations := folderOps
    move_operations := moveOps
    archive_operations := archiveOps
    link_operations := linkOps }

/-- The parent of a node in a union-find parent map (a node not in
the map is its own parent). -/
def parentOf (m : List (String × String)) (x : String) : String :=
  (alGet m x).getD x

/-- `x` reaches the root `r` by iterating `parentOf`. -/
def RootedAt (m : List (String × String)) (x r : String) : Prop :=
  (∃ n, (fun y => parentOf m y)^[n] x = r) ∧ parentOf m r = r

/-- Well-formedness of a union-find state: duplicate-free keys, parent
values that are themselves keys, and every chain reaching a root. -/
def UFInv (uf : UnionFind) : Prop :=
  (alKeys uf.parent).Nodup ∧
  (∀ x p, alGet uf.parent x = some p → p ∈ alKeys uf.parent) ∧
  (∀ x, ∃ r, RootedAt uf.parent x r)

/-- Concrete fixture: two batch entries with identical titles and
identical sprint context aimed at one target folder. -/
def fixtureArgs : List ResolveArgs :=
  [{ page_id := "p1", original_title := "Sprint Review",
     target_folder_id := "F", source_context := some "Sprint 8" },
   { page_id := "p2", original_title := "Sprint Review",
     target_folder_id := "F", source_context := some "Sprint 8" }]

/-- Concrete fixture: a single page under a sprint parent. -/
def fixturePage : Page :=
  { id := "1", title := "zzz", parent_id := "S8", parent_title := "Sprint 8" }

/-- Concrete fixture: three pages with overlapping titles and
pairwise-distinct ids for the similarity-grouping scenarios. -/
def fixturePageA : Page := { id := "A", title := "Retro alpha beta", content := "x" }

/-- Second similarity fixture page. -/
def fixturePageB : Page := { id := "B", title := "Retro alpha gamma", content := "x" }

/-- Third similarity fixture page. -/
def fixturePageC : Page := { id := "C", title := "Retro gamma delta", content := "x" }

/-- Concrete fixture: a proposal creating the archive folder, moving
one page and archiving one sprint folder. -/
def fixtureProposal : RestructureProposal :=
  { parent_id := "p"
    parent_title := "pt"
    space_id := "s"
    folders_to_create :=
      [{ folder_name := "05-Retrospectives", parent_id := "p",
         doc_type := some .RETROSPECTIVE, order := 5 },
       { folder_name := "99-Archive", parent_id := "p", order := 99 }]
    pages_to_move :=
      [{ page_id := "1", original_title := "Retro", resolved_title := "Retro",
         source_parent_id := "S8", source_parent_title := "Sprint 8",
         target_folder_name := "05-Retrospectives",
         doc_type := .RETROSPECTIVE }]
    folders_to_archive :=
      [{ folder_id := "S8", folder_title := "Sprint 8",
         new_title := "[ARCHIVED] Sprint 8" }]
    total_pages := 1 }

/-- Membership after a set-add. -/
theorem mem_listInsert {s : List String} {x y : String} :
    y ∈ listInsert s x ↔ y ∈ s ∨ y = x := by
  unfold listInsert
  split_ifs with h
  · constructor
    · exact Or.inl
    · rintro (h' | rfl)
      · exact h'
      · exact h
  · simp [List.mem_append]

/-- The added element is a member. -/
theorem self_mem_listInsert (s : List String) (x : String) :
    x ∈ listInsert s x :=
  mem_listInsert.mpr (Or.inr rfl)

/-- Old members survive a set-add. -/
theorem mem_listInsert_of_mem {s : List String} {x y : String} (h : y ∈ s) :
    y ∈ listInsert s x :=
  mem_listInsert.mpr (Or.inl h)

/-- Lookup at the key just written. -/
theorem alGet_alSet_self {κ α : Type} [DecidableEq κ]
    (m : List (κ × α)) (k : κ) (v : α) : alGet (alSet m k v) k = some v := by
  induction m with
  | nil => simp [alGet, alSet]
  | cons kv rest ih =>
    obtain ⟨k', v'⟩ := kv
    by_cases h : k' = k <;> simp [alGet, alSet, h, ih]

/-- Lookup at a different key than the one written. -/
theorem alGet_alSet_ne {κ α : Type} [DecidableEq κ]
    (m : List (κ × α)) {k k' : κ} (v : α) (h : k' ≠ k) :
    alGet (alSet m k v) k' = alGet m k' := by
  have h' : ¬k = k' := fun hh => h hh.symm
  induction m with
  | nil => simp [alGet, alSet, h']
  | cons kv rest ih =>
    obtain ⟨k0, v0⟩ := kv
    by_cases h0 : k0 = k <;> by_cases h1 : k0 = k' <;>
      simp_all [alGet, alSet]

/-- A collision check reports a collision iff the title is in one of
the two sets. -/
theorem check_collision_iff (r : NameResolver) (t tid : String) :
    (r.check_collision t tid).has_collision = true ↔
      t ∈ r.existingOf tid ∨ t ∈ r.plannedOf tid := by
  unfold NameResolver.check_collision
  split_ifs with hc <;> simp [hc]

/-- A false collision check means the title is in neither set. -/
theorem check_collision_false {r : NameResolver} {t tid : String}
    (h : (r.check_collision t tid).has_collision = false) :
    t ∉ r.existingOf tid ∧ t ∉ r.plannedOf tid := by
  constructor <;> intro hm
  · have hc := (check_collision_iff r t tid).mpr (Or.inl hm)
    rw [h] at hc
    exact absurd hc (by simp)
  · have hc := (check_collision_iff r t tid).mpr (Or.inr hm)
    rw [h] at hc
    exact absurd hc (by simp)

/-- A successful suffix search returns a title outside the combined
title set. -/
theorem addSuffixGo_some_not_mem {all : List String} {title c : String} :
    ∀ {s fuel : Nat}, addSuffixGo all title s fuel = some c → c ∉ all := by
  intro s fuel
  induction fuel generalizing s with
  | zero => intro h; simp [addSuffixGo] at h
  | succ n ih =>
    intro h
    simp only [addSuffixGo] at h
    by_cases h1 : suffixCandidate title s ∈ all
    · simp only [if_pos h1] at h
      by_cases h2 : s + 1 > 100
      · simp [if_pos h2] at h
      · simp only [if_neg h2] at h
        exact ih h
    · simp only [if_neg h1] at h
      obtain rfl : suffixCandidate title s = c := by simpa using h
      exact h1

/-- The collision component of the context step is always the
collision check of its resulting title. -/
theorem contextStep_collision (r : NameResolver) (t tid : String)
    (ctx : Option String) (fc : Bool) :
    (r.contextStep t tid ctx fc).2.2 =
      r.check_collision (r.contextStep t tid ctx fc).1 tid := by
  unfold NameResolver.contextStep
  cases ctx with
  | none => split_ifs <;> rfl
  | some c => split_ifs <;> rfl

/-- When the title already carries a context marker, the context step
leaves it untouched and reports no context preservation. -/
theorem contextStep_of_has_context {r : NameResolver} {t : String}
    (tid : String) (ctx : Option String) (fc : Bool)
    (h : r.has_context t = true) :
    r.contextStep t tid ctx fc = (t, false, r.check_collision t tid) := by
  unfold NameResolver.contextStep NameResolver.needsContext
  rw [h]
  cases ctx with
  | none => rfl
  | some c => rfl

/-- The planned set of the updated folder after registering. -/
theorem plannedOf_registerPlanned_self (r : NameResolver) (tid t : String) :
    (r.registerPlanned tid t).plannedOf tid = listInsert (r.plannedOf tid) t := by
  simp [NameResolver.registerPlanned, NameResolver.plannedOf, alGet_alSet_self]

/-- Planned sets of other folders are untouched by registering. -/
theorem plannedOf_registerPlanned_ne (r : NameResolver) {f tid : String}
    (t : String) (h : f ≠ tid) :
    (r.registerPlanned tid t).plannedOf f = r.plannedOf f := by
  simp [NameResolver.registerPlanned, NameResolver.plannedOf, alGet_alSet_ne _ _ h]

/-- Registering a planned title does not change existing titles. -/
theorem existingOf_registerPlanned (r : NameResolver) (tid t f : String) :
    (r.registerPlanned tid t).existingOf f = r.existingOf f := rfl

/-- Planned membership is monotone under registering. -/
theorem mem_plannedOf_registerPlanned {r : NameResolver} {f x : String}
    (tid t : String) (h : x ∈ r.plannedOf f) :
    x ∈ (r.registerPlanned tid t).plannedOf f := by
  by_cases he : f = tid
  · subst he
    rw [plannedOf_registerPlanned_self]
    exact mem_listInsert_of_mem h
  · rwa [plannedOf_registerPlanned_ne _ _ he]

/-- The registered title is planned afterwards. -/
theorem self_mem_plannedOf_registerPlanned (r : NameResolver) (tid t : String) :
    t ∈ (r.registerPlanned tid t).plannedOf tid := by
  rw [plannedOf_registerPlanned_self]
  exact self_mem_listInsert _ _

/-- Characterization of a successful `resolve`: the updated state is
exactly the old one with the resolved title registered, and the
resolved title is fresh for the target folder (in neither the existing
nor the planned set). -/
theorem resolve_some_spec {r : NameResolver} {pid t tid : String}
    {ctx : Option String} {fc : Bool} {res : NameResolution} {r' : NameResolver}
    (h : r.resolve pid t tid ctx fc = some (res, r')) :
    r' = r.registerPlanned tid res.resolved_title ∧
    res.resolved_title ∉ r.existingOf tid ∧
    res.resolved_title ∉ r.plannedOf tid := by
  simp only [NameResolver.resolve] at h
  by_cases hc : (r.contextStep t tid ctx fc).2.2.has_collision = true
  · rw [if_pos hc] at h
    cases hs : r.add_suffix (r.contextStep t tid ctx fc).1 tid with
    | none => rw [hs] at h; exact absurd h (by simp)
    | some c =>
      rw [hs] at h
      simp only [Option.some.injEq, Prod.mk.injEq] at h
      obtain ⟨h1, h2⟩ := h
      have hres : res.resolved_title = c := by rw [← h1]
      have hfresh : c ∉ r.existingOf tid ++ r.plannedOf tid :=
        addSuffixGo_some_not_mem hs
      rw [List.mem_append] at hfresh
      push_neg at hfresh
      refine ⟨?_, hres ▸ hfresh.1, hres ▸ hfresh.2⟩
      rw [← h2, hres]
  · rw [if_neg hc] at h
    simp only [Option.some.injEq, Prod.mk.injEq] at h
    obtain ⟨h1, h2⟩ := h
    have hres : res.resolved_title = (r.contextStep t tid ctx fc).1 := by rw [← h1]
    have hfalse : (r.check_collision (r.contextStep t tid ctx fc).1 tid).has_collision = false := by
      rw [← contextStep_collision]
      exact Bool.not_eq_true _ ▸ hc
    have hfresh := check_collision_false hfalse
    refine ⟨?_, hres ▸ hfresh.1, hres ▸ hfresh.2⟩
    rw [← h2, hres]

/-- Invariants of a successful `resolveAll` run: every produced
resolution is registered in the final planned set of its folder, the
planned sets grow monotonically, every produced title was fresh at its
creation, and titles aimed at the same target folder are pairwise
distinct. -/
theorem resolveAll_spec :
    ∀ {r : NameResolver} {args : List ResolveArgs}
      {out : List (ResolveArgs × NameResolution)} {r' : NameResolver},
      r.resolveAll args = some (out, r') →
      (∀ pr ∈ out, pr.2.resolved_title ∈ r'.plannedOf pr.1.target_folder_id) ∧
      (∀ f x, x ∈ r.plannedOf f → x ∈ r'.plannedOf f) ∧
      (∀ pr ∈ out, pr.2.resolved_title ∉ r.plannedOf pr.1.target_folder_id) ∧
      List.Pairwise
        (fun a b => a.1.target_folder_id = b.1.target_folder_id →
          a.2.resolved_title ≠ b.2.resolved_title) out := by
  intro r args
  induction args generalizing r with
  | nil =>
    intro out r' h
    simp only [NameResolver.resolveAll, Option.some.injEq, Prod.mk.injEq] at h
    obtain ⟨h1, h2⟩ := h
    subst h1; subst h2
    exact ⟨by simp, fun f x hx => hx, by simp, by simp⟩
  | cons a rest ih =>
    intro out r' h
    simp only [NameResolver.resolveAll] at h
    cases h1 : r.resolve a.page_id a.original_title a.target_folder_id
        a.source_context a.force_context with
    | none => rw [h1] at h; exact absurd h (by simp)
    | some sr =>
      obtain ⟨res, r1⟩ := sr
      rw [h1] at h
      dsimp only at h
      cases h2 : r1.resolveAll rest with
      | none => rw [h2] at h; exact absurd h (by simp)
      | some sr2 =>
        obtain ⟨out2, r2⟩ := sr2
        rw [h2] at h
        simp only [Option.some.injEq, Prod.mk.injEq] at h
        obtain ⟨hout, hr'⟩ := h
        subst hout; subst hr'
        obtain ⟨hstate, hex, hpl⟩ := resolve_some_spec h1
        obtain ⟨ih1, ih2, ih3, ih4⟩ := ih h2
        have hmono1 : ∀ f x, x ∈ r.plannedOf f → x ∈ r1.plannedOf f := by
          intro f x hx
          rw [hstate]
          exact mem_plannedOf_registerPlanned _ _ hx
        have hselfmem : res.resolved_title ∈ r1.plannedOf a.target_folder_id := by
          rw [hstate]
          exact self_mem_plannedOf_registerPlanned _ _ _
        refine ⟨?_, ?_, ?_, ?_⟩
        · intro pr hpr
          rcases List.mem_cons.mp hpr with hh | ht
          · subst hh
            exact ih2 _ _ hselfmem
          · exact ih1 _ ht
        · intro f x hx
          exact ih2 _ _ (hmono1 _ _ hx)
        · intro pr hpr
          rcases List.mem_cons.mp hpr with hh | ht
          · subst hh
            exact hpl
          · intro hmem
            exact ih3 _ ht (hmono1 _ _ hmem)
        · refine List.Pairwise.cons ?_ ih4
          intro b hb hfolder htitle
          apply ih3 _ hb
          rw [← hfolder, ← htitle]
          exact hselfmem

/-- Exhaustion characterization of the suffix loop: starting at
`s` with `101 - s` iterations of fuel, it fails exactly when every
suffix between `s` and the safety limit 100 is taken. -/
theorem addSuffixGo_none_iff {all : List String} {title : String} :
    ∀ {fuel s : Nat}, s + fuel = 101 →
      (addSuffixGo all title s fuel = none ↔
        ∀ n, s ≤ n → n ≤ 100 → suffixCandidate title n ∈ all) := by
  intro fuel
  induction fuel with
  | zero =>
    intro s hs
    have : s = 101 := by omega
    subst this
    simp only [addSuffixGo]
    constructor
    · intro _ n h1 h2
      omega
    · intro _
      trivial
  | succ m ih =>
    intro s hs
    simp only [addSuffixGo]
    by_cases h1 : suffixCandidate title s ∈ all
    · rw [if_pos h1]
      by_cases h2 : s + 1 > 100
      · rw [if_pos h2]
        have hseq : s = 100 := by omega
        subst hseq
        constructor
        · intro _ n hn1 hn2
          have : n = 100 := by omega
          subst this
          exact h1
        · intro _
          rfl
      · rw [if_neg h2]
        have hih := ih (s := s + 1) (by omega)
        constructor
        · intro hnone n hn1 hn2
          rcases Nat.eq_or_lt_of_le hn1 with rfl | hlt
          · exact h1
          · exact (hih.mp hnone) n hlt hn2
        · intro hall
          exact hih.mpr (fun n hn1 hn2 => hall n (by omega) hn2)
    · rw [if_neg h1]
      constructor
      · intro hcontra
        exact absurd hcontra (by simp)
      · intro hall
        exact absurd (hall s le_rfl (by omega)) h1

/-- `_add_suffix` fails exactly when every candidate `" (2)"` …
`" (100)"` is already taken in the folder. -/
theorem add_suffix_none_iff {r : NameResolver} {title tid : String} :
    r.add_suffix title tid = none ↔
      ∀ n, 2 ≤ n → n ≤ 100 →
        suffixCandidate title n ∈ r.existingOf tid ++ r.plannedOf tid :=
  addSuffixGo_none_iff (by omega)

/-- `resolve` fails exactly when the context-adjusted title still
collides and the whole searched suffix range 2..100 is taken: the only
error path is numeric-suffix exhaustion. -/
theorem resolve_none_iff {r : NameResolver} {pid t tid : String}
    {ctx : Option String} {fc : Bool} :
    r.resolve pid t tid ctx fc = none ↔
      ((r.check_collision (r.contextStep t tid ctx fc).1 tid).has_collision = true ∧
        ∀ n, 2 ≤ n → n ≤ 100 →
          suffixCandidate (r.contextStep t tid ctx fc).1 n ∈
            r.existingOf tid ++ r.plannedOf tid) := by
  simp only [NameResolver.resolve]
  by_cases hc : (r.contextStep t tid ctx fc).2.2.has_collision = true
  · rw [if_pos hc]
    rw [contextStep_collision] at hc
    cases hs : r.add_suffix (r.contextStep t tid ctx fc).1 tid with
    | none =>
      simp only [hs]
      exact ⟨fun _ => ⟨hc, add_suffix_none_iff.mp hs⟩, fun _ => trivial⟩
    | some c =>
      simp only [hs]
      constructor
      · intro hcontra
        exact absurd hcontra (by simp)
      · intro ⟨_, hall⟩
        have : r.add_suffix (r.contextStep t tid ctx fc).1 tid = none :=
          add_suffix_none_iff.mpr hall
        rw [hs] at this
        exact absurd this (by simp)
  · rw [if_neg hc]
    rw [contextStep_collision] at hc
    constructor
    · intro hcontra
      exact absurd hcontra (by simp)
    · intro ⟨hcol, _⟩
      exact absurd hcol hc

/-- A title that already carries a recognized context marker and does
not collide in the target folder is resolved to itself (no context
injection, no suffix), whatever the collision sets, context and force
flag are. -/
theorem resolve_has_context_unchanged {r : NameResolver} {pid t tid : String}
    {ctx : Option String} {fc : Bool}
    (h1 : r.has_context t = true) (h2 : t ∉ r.existingOf tid)
    (h3 : t ∉ r.plannedOf tid) :
    r.resolve pid t tid ctx fc =
      some ({ original_title := t, resolved_title := t,
              collision_avoided := false, context_preserved := false,
              source_context := ctx },
            r.registerPlanned tid t) := by
  have hstep := contextStep_of_has_context tid ctx fc h1
  have hcol : (r.check_collision t tid).has_collision = false := by
    rw [Bool.eq_false_iff]
    intro hcontra
    rcases (check_collision_iff r t tid).mp hcontra with hh | hh
    · exact h2 hh
    · exact h3 hh
  simp only [NameResolver.resolve, hstep, hcol]
  rfl

/-- Invariants of a successful folder-bucket resolution: each move
carries the bucket's folder name, its resolved title is registered in
the final state, was fresh at creation, titles are pairwise distinct
within the bucket, planned sets grow monotonically, and exactly one
move is produced per page. -/
theorem resolveGroup_spec :
    ∀ {r : NameResolver} {tid fname : String}
      {ps : List (Page × ClassificationResult)}
      {moves : List PageMove} {r' : NameResolver} {c p : Nat},
      resolveGroup r tid fname ps = some (moves, r', c, p) →
      (∀ m ∈ moves, m.target_folder_name = fname) ∧
      (∀ m ∈ moves, m.resolved_title ∈ r'.plannedOf tid) ∧
      (∀ m ∈ moves, m.resolved_title ∉ r.plannedOf tid) ∧
      List.Pairwise (fun m1 m2 => m1.resolved_title ≠ m2.resolved_title) moves ∧
      (∀ f x, x ∈ r.plannedOf f → x ∈ r'.plannedOf f) ∧
      moves.length = ps.length := by
  intro r tid fname ps
  induction ps generalizing r with
  | nil =>
    intro moves r' c p h
    simp only [resolveGroup, Option.some.injEq, Prod.mk.injEq] at h
    obtain ⟨h1, h2, _, _⟩ := h
    subst h1; subst h2
    exact ⟨by simp, by simp, by simp, by simp, fun f x hx => hx, by simp⟩
  | cons pc rest ih =>
    intro moves r' c p h
    obtain ⟨page, cls⟩ := pc
    simp only [resolveGroup] at h
    cases h1 : r.resolve page.id page.title tid cls.source_sprint false with
    | none => rw [h1] at h; exact absurd h (by simp)
    | some sr =>
      obtain ⟨res, r1⟩ := sr
      rw [h1] at h
      dsimp only at h
      cases h2 : resolveGroup r1 tid fname rest with
      | none => rw [h2] at h; exact absurd h (by simp)
      | some sr2 =>
        obtain ⟨moves2, r2, c2, p2⟩ := sr2
        rw [h2] at h
        simp only [Option.some.injEq, Prod.mk.injEq] at h
        obtain ⟨hmv, hr2, _, _⟩ := h
        subst hmv; subst hr2
        obtain ⟨hstate, hex, hpl⟩ := resolve_some_spec h1
        obtain ⟨ih1, ih2, ih3, ih4, ih5, ih6⟩ := ih h2
        have hmono1 : ∀ f x, x ∈ r.plannedOf f → x ∈ r1.plannedOf f := by
          intro f x hx
          rw [hstate]
          exact mem_plannedOf_registerPlanned _ _ hx
        have hselfmem : res.resolved_title ∈ r1.plannedOf tid := by
          rw [hstate]
          exact self_mem_plannedOf_registerPlanned _ _ _
        refine ⟨?_, ?_, ?_, ?_, ?_, ?_⟩
        · intro m hm
          rcases List.mem_cons.mp hm with hh | ht
          · subst hh; rfl
          · exact ih1 _ ht
        · intro m hm
          rcases List.mem_cons.mp hm with hh | ht
          · subst hh
            exact ih5 _ _ hselfmem
          · exact ih2 _ ht
        · intro m hm
          rcases List.mem_cons.mp hm with hh | ht
          · subst hh
            exact hpl
          · intro hmem
            exact ih3 _ ht (hmono1 _ _ hmem)
        · refine List.Pairwise.cons ?_ ih4
          intro b hb htitle
          apply ih3 _ hb
          rw [← htitle]
          exact hselfmem
        · intro f x hx
          exact ih5 _ _ (hmono1 _ _ hx)
        · simpa using ih6

/-- Invariants of the outer folder-bucket loop of `propose`: every
move's folder name is a bucket key, its resolved title is registered
under its folder's target id in the final state and was fresh at the
start of its bucket, any two moves resolved into the same target
folder id carry distinct titles, planned sets grow monotonically, and
the moves are exactly one per bucketed page. -/
theorem resolveGroups_spec :
    ∀ {r : NameResolver} {efs : List Folder}
      {gs : List (String × List (Page × ClassificationResult))}
      {out : List PageMove} {r' : NameResolver} {c p : Nat},
      resolveGroups r efs gs = some (out, r', c, p) →
      (∀ m ∈ out, m.target_folder_name ∈ alKeys gs) ∧
      (∀ m ∈ out, m.resolved_title ∈
        r'.plannedOf (targetFolderIdFor efs m.target_folder_name)) ∧
      (∀ m ∈ out, m.resolved_title ∉
        r.plannedOf (targetFolderIdFor efs m.target_folder_name)) ∧
      List.Pairwise
        (fun m1 m2 =>
          targetFolderIdFor efs m1.target_folder_name =
            targetFolderIdFor efs m2.target_folder_name →
          m1.resolved_title ≠ m2.resolved_title) out ∧
      (∀ f x, x ∈ r.plannedOf f → x ∈ r'.plannedOf f) ∧
      out.length = (gs.map (fun g => g.2.length)).sum := by
  intro r efs gs
  induction gs generalizing r with
  | nil =>
    intro out r' c p h
    simp only [resolveGroups, Option.some.injEq, Prod.mk.injEq] at h
    obtain ⟨h1, h2, _, _⟩ := h
    subst h1; subst h2
    exact ⟨by simp, by simp, by simp, by simp, fun f x hx => hx, by simp⟩
  | cons g rest ih =>
    intro out r' c p h
    obtain ⟨fname, plist⟩ := g
    simp only [resolveGroups] at h
    cases h1 : resolveGroup r (targetFolderIdFor efs fname) fname plist with
    | none => rw [h1] at h; exact absurd h (by simp)
    | some sr =>
      obtain ⟨moves, r1, c1, p1⟩ := sr
      rw [h1] at h
      dsimp only at h
      cases h2 : resolveGroups r1 efs rest with
      | none => rw [h2] at h; exact absurd h (by simp)
      | some sr2 =>
        obtain ⟨moves2, r2, c2, p2⟩ := sr2
        rw [h2] at h
        simp only [Option.some.injEq, Prod.mk.injEq] at h
        obtain ⟨hmv, hr2, _, _⟩ := h
        subst hmv; subst hr2
        obtain ⟨g1, g2, g3, g4, g5, g6⟩ := resolveGroup_spec h1
        obtain ⟨ih1, ih2, ih3, ih4, ih5, ih6⟩ := ih h2
        have hname : ∀ m ∈ moves,
            targetFolderIdFor efs m.target_folder_name =
              targetFolderIdFor efs fname := by
          intro m hm
          rw [g1 m hm]
        refine ⟨?_, ?_, ?_, ?_, ?_, ?_⟩
        · intro m hm
          rcases List.mem_append.mp hm with hh | ht
          · rw [g1 m hh]
            exact List.mem_cons_self _ _
          · exact List.mem_cons_of_mem _ (ih1 _ ht)
        · intro m hm
          rcases List.mem_append.mp hm with hh | ht
          · rw [hname m hh]
            exact ih5 _ _ (g2 _ hh)
          · exact ih2 _ ht
        · intro m hm
          rcases List.mem_append.mp hm with hh | ht
          · rw [hname m hh]
            exact g3 _ hh
          · intro hmem
            exact ih3 _ ht (g5 _ _ hmem)
        · rw [List.pairwise_append]
          refine ⟨?_, ih4, ?_⟩
          · refine List.Pairwise.imp ?_ g4
            intro a b hab heq
            exact hab
          · intro m1 hm1 m2 hm2 heq
            intro htit
            apply ih3 _ hm2
            rw [← heq, hname m1 hm1, ← htit]
            exact g2 _ hm1
        · intro f x hx
          exact ih5 _ _ (g5 _ _ hx)
        · simp only [List.length_append, List.map_cons, List.sum_cons, g6, ih6]

/-- Keys after an association-list write. -/
theorem mem_alKeys_alSet {κ α : Type} [DecidableEq κ]
    (m : List (κ × α)) (k k' : κ) (v : α) :
    k' ∈ alKeys (alSet m k v) ↔ k' ∈ alKeys m ∨ k' = k := by
  induction m with
  | nil => simp [alKeys, alSet]
  | cons kv rest ih =>
    obtain ⟨k0, v0⟩ := kv
    by_cases h0 : k0 = k
    · subst h0
      simp [alKeys, alSet]
      tauto
    · simp only [alSet, if_neg h0, alKeys, List.map_cons, List.mem_cons]
      rw [show alKeys rest = rest.map Prod.fst from rfl] at ih
      tauto

/-- Each bucket key of `groupByFolder` is the folder name of one of
the classified pages. -/
theorem groupByFolder_keys :
    ∀ (l : List (Page × ClassificationResult))
      (acc : List (String × List (Page × ClassificationResult))) (k : String),
      k ∈ alKeys (l.foldl
        (fun m pc =>
          let fn := folderNameFor pc.2.doc_type
          alSet m fn ((alGet m fn).getD [] ++ [pc])) acc) →
      k ∈ alKeys acc ∨ ∃ pc ∈ l, k = folderNameFor pc.2.doc_type := by
  intro l
  induction l with
  | nil =>
    intro acc k h
    exact Or.inl h
  | cons pc rest ih =>
    intro acc k h
    rcases ih _ _ h with hacc | ⟨pc', hmem, hk⟩
    · rcases (mem_alKeys_alSet _ _ _ _).mp hacc with hold | hnew
      · exact Or.inl hold
      · exact Or.inr ⟨pc, List.mem_cons_self _ _, hnew⟩
    · exact Or.inr ⟨pc', List.mem_cons_of_mem _ hmem, hk⟩

/-- Appending one element to a bucket raises the total bucketed count
by one. -/
theorem totalLen_alSet_append {κ : Type} [DecidableEq κ]
    {β : Type} (m : List (κ × List β)) (k : κ) (x : β) :
    ((alSet m k ((alGet m k).getD [] ++ [x])).map
      (fun g => g.2.length)).sum =
      (m.map (fun g => g.2.length)).sum + 1 := by
  induction m with
  | nil => simp [alSet, alGet]
  | cons kv rest ih =>
    obtain ⟨k0, v0⟩ := kv
    by_cases h0 : k0 = k
    · subst h0
      simp [alSet, alGet]
      omega
    · have hne : ¬(k0 = k) := h0
      simp only [alGet, if_neg hne, alSet, List.map_cons, List.sum_cons, ih]
      omega

/-- `groupByFolder` buckets exactly the classified pages. -/
theorem groupByFolder_totalLen :
    ∀ (l : List (Page × ClassificationResult))
      (acc : List (String × List (Page × ClassificationResult))),
      ((l.foldl
        (fun m pc =>
          let fn := folderNameFor pc.2.doc_type
          alSet m fn ((alGet m fn).getD [] ++ [pc])) acc).map
        (fun g => g.2.length)).sum =
        (acc.map (fun g => g.2.length)).sum + l.length := by
  intro l
  induction l with
  | nil => intro acc; simp
  | cons pc rest ih =>
    intro acc
    simp only [List.foldl_cons, List.length_cons, ih, totalLen_alSet_append]
    omega

/-- Core facts about the moves of a successful proposal: the summary
counter equals the page count, exactly one `PageMove` is produced per
input page, every move targets a canonical typed/uncategorized folder,
and resolved titles are unique within a target folder name. -/
theorem propose_pages_to_move_spec {sp : StructureProposer}
    {pid pt sid : String} {pages : List Page} {efs : List Folder}
    {P : RestructureProposal}
    (h : sp.propose pid pt sid pages efs = some P) :
    P.total_pages = pages.length ∧
    P.pages_to_move.length = pages.length ∧
    (∀ m ∈ P.pages_to_move,
      ∃ t : DocumentType, m.target_folder_name = folderNameFor t) ∧
    List.Pairwise
      (fun m1 m2 => m1.target_folder_name = m2.target_folder_name →
        m1.resolved_title ≠ m2.resolved_title) P.pages_to_move := by
  simp only [StructureProposer.propose] at h
  cases hg : resolveGroups
      ((sp.name_resolver.register_existing_pages pages).reset_planned) efs
      (groupByFolder (sp.classifier.classify_batch pages)) with
  | none => rw [hg] at h; exact absurd h (by simp)
  | some sr =>
    obtain ⟨moves, r', c, p⟩ := sr
    rw [hg] at h
    simp only [Option.some.injEq] at h
    subst h
    obtain ⟨G1, G2, G3, G4, G5, G6⟩ := resolveGroups_spec hg
    refine ⟨rfl, ?_, ?_, ?_⟩
    · show moves.length = pages.length
      rw [G6]
      unfold groupByFolder
      rw [groupByFolder_totalLen]
      simp [DocumentClassifier.classify_batch]
    · intro m hm
      have hk := G1 m hm
      rcases groupByFolder_keys _ _ _ hk with habs | ⟨pc, _, hname⟩
      · simp [alKeys] at habs
      · exact ⟨pc.2.doc_type, hname⟩
    · refine List.Pairwise.imp ?_ G4
      intro a b hab hname
      exact hab (by rw [hname])

/-- Field values of a successful `resolve`: the original title, the
`context_preserved` flag (exactly the context step's flag), and the
echoed source context. -/
theorem resolve_some_fields {r : NameResolver} {pid t tid : String}
    {ctx : Option String} {fc : Bool} {res : NameResolution} {r' : NameResolver}
    (h : r.resolve pid t tid ctx fc = some (res, r')) :
    res.original_title = t ∧
    res.context_preserved = (r.contextStep t tid ctx fc).2.1 ∧
    res.source_context = ctx := by
  simp only [NameResolver.resolve] at h
  by_cases hc : (r.contextStep t tid ctx fc).2.2.has_collision = true
  · rw [if_pos hc] at h
    cases hs : r.add_suffix (r.contextStep t tid ctx fc).1 tid with
    | none => rw [hs] at h; exact absurd h (by simp)
    | some c =>
      rw [hs] at h
      simp only [Option.some.injEq, Prod.mk.injEq] at h
      obtain ⟨h1, _⟩ := h
      rw [← h1]
      exact ⟨rfl, rfl, rfl⟩
  · rw [if_neg hc] at h
    simp only [Option.some.injEq, Prod.mk.injEq] at h
    obtain ⟨h1, _⟩ := h
    rw [← h1]
    exact ⟨rfl, rfl, rfl⟩

/-- C1: within one run of the resolver (any sequence of `resolve`
calls threading the state, hence also `resolve_batch`), the resolved
titles of any two calls targeting the same folder are distinct; and
every `PageMove` produced by `StructureProposer.propose` has a
resolved title unique within its target folder. -/
theorem C1_resolved_titles_unique :
    (∀ (r : NameResolver) (args : List ResolveArgs)
       (out : List (ResolveArgs × NameResolution)) (r' : NameResolver),
       r.resolveAll args = some (out, r') →
       List.Pairwise
         (fun a b => a.1.target_folder_id = b.1.target_folder_id →
           a.2.resolved_title ≠ b.2.resolved_title) out) ∧
    (∀ (sp : StructureProposer) (pid pt sid : String) (pages : List Page)
       (efs : List Folder) (P : RestructureProposal),
       sp.propose pid pt sid pages efs = some P →
       List.Pairwise
         (fun m1 m2 => m1.target_folder_name = m2.target_folder_name →
           m1.resolved_title ≠ m2.resolved_title) P.pages_to_move) :=
  ⟨fun _ _ _ _ h => (resolveAll_spec h).2.2.2,
   fun _ _ _ _ _ _ _ h => (propose_pages_to_move_spec h).2.2.2⟩

/-- Witness for C1: a colliding two-call batch, with the hypothesis
discharged by evaluation. -/
theorem C1_witness :
    (NameResolver.resolveAll {} fixtureArgs =
      some
        ([({ page_id := "p1", original_title := "Sprint Review",
             target_folder_id := "F", source_context := some "Sprint 8" },
           { original_title := "Sprint Review",
             resolved_title := "Sprint 8 - Sprint Review",
             collision_avoided := false, context_preserved := true,
             source_context := some "Sprint 8" }),
          ({ page_id := "p2", original_title := "Sprint Review",
             target_folder_id := "F", source_context := some "Sprint 8" },
           { original_title := "Sprint Review",
             resolved_title := "Sprint 8 - Sprint Review (2)",
             collision_avoided := true, context_preserved := true,
             source_context := some "Sprint 8" })],
         { strategy := "append-parent-name", always_preserve_context := true,
           existing_titles := [],
           planned_titles :=
             [("F", ["Sprint 8 - Sprint Review",
                     "Sprint 8 - Sprint Review (2)"])] })) ∧
    List.Pairwise
      (fun (a b : ResolveArgs × NameResolution) =>
        a.1.target_folder_id = b.1.target_folder_id →
          a.2.resolved_title ≠ b.2.resolved_title)
      [({ page_id := "p1", original_title := "Sprint Review",
          target_folder_id := "F", source_context := some "Sprint 8" },
        { original_title := "Sprint Review",
          resolved_title := "Sprint 8 - Sprint Review",
          collision_avoided := false, context_preserved := true,
          source_context := some "Sprint 8" }),
       ({ page_id := "p2", original_title := "Sprint Review",
          target_folder_id := "F", source_context := some "Sprint 8" },
        { original_title := "Sprint Review",
          resolved_title := "Sprint 8 - Sprint Review (2)",
          collision_avoided := true, context_preserved := true,
          source_context := some "Sprint 8" })] :=
  ⟨by rfl, C1_resolved_titles_unique.1 {} fixtureArgs _ _ rfl⟩

/-- Counterexample to C2 as stated: a title that already carries the
recognized "Sprint N - " marker but collides with an existing title in
the target folder is modified by `resolve` (a numeric suffix is
appended), so "never modified regardless of collision state" is false
on the code. -/
theorem C2_counterexample :
    NameResolver.has_context {} "Sprint 8 - Review" = true ∧
    ((NameResolver.register_existing_titles {} "F"
        ["Sprint 8 - Review"]).resolve
        "p" "Sprint 8 - Review" "F" (some "Sprint 9") true).map
      (fun x => x.1.resolved_title) = some "Sprint 8 - Review (2)" ∧
    ("Sprint 8 - Review (2)" : String) ≠ "Sprint 8 - Review" :=
  ⟨by rfl, by rfl, by decide⟩

/-- C2 (amended): a title already carrying a recognized context marker
never receives context injection — `context_preserved` is false on any
successful resolution — and, whenever it does not collide with the
existing or planned titles of the target folder, `resolve` returns it
verbatim, for every collision state and even when
`force_context = true`. -/
theorem C2_context_marker_kept :
    ∀ (r : NameResolver) (pid t tid : String) (ctx : Option String) (fc : Bool),
      r.has_context t = true →
      ((∀ res r', r.resolve pid t tid ctx fc = some (res, r') →
          res.context_preserved = false) ∧
        (t ∉ r.existingOf tid → t ∉ r.plannedOf tid →
          (r.resolve pid t tid ctx fc).map (fun x => x.1.resolved_title) =
            some t)) := by
  intro r pid t tid ctx fc h1
  constructor
  · intro res r' h
    have hf := (resolve_some_fields h).2.1
    rw [contextStep_of_has_context tid ctx fc h1] at hf
    exact hf
  · intro h2 h3
    rw [resolve_has_context_unchanged h1 h2 h3]
    rfl

/-- Witness for the amended C2 at a concrete marked title with
`force_context = true`. -/
theorem C2_witness :
    NameResolver.has_context {} "Sprint 8 - Review" = true ∧
    ("Sprint 8 - Review" ∉ NameResolver.existingOf {} "F") ∧
    ("Sprint 8 - Review" ∉ NameResolver.plannedOf {} "F") ∧
    ((NameResolver.resolve {} "p" "Sprint 8 - Review" "F" (some "Sprint 9")
        true).map (fun x => x.1.resolved_title) = some "Sprint 8 - Review") :=
  ⟨by rfl, by decide, by decide,
   (C2_context_marker_kept {} "p" "Sprint 8 - Review" "F" (some "Sprint 9")
      true (by rfl)).2 (by decide) (by decide)⟩

/-- C6: two pages originally titled "Sprint Review", resolved in
sequence into the same empty target folder with the identical source
context "Sprint 8" under the default append-parent-name strategy,
receive the titles "Sprint 8 - Sprint Review" and
"Sprint 8 - Sprint Review (2)". -/
theorem C6_identical_context_suffix :
    (NameResolver.resolveAll {} fixtureArgs).map
      (fun x => x.1.map (fun pr => pr.2.resolved_title)) =
      some ["Sprint 8 - Sprint Review", "Sprint 8 - Sprint Review (2)"] := by
  rfl

/-- C7: `resolve` fails (the modelled `ValueError`) exactly when the
context-adjusted title still collides and every numeric-suffix
candidate " (2)" … " (100)" of the searched range is taken in the
target folder; whenever some suffix in the searched range is free (or
no collision remains), `resolve` returns a `NameResolution`. -/
theorem C7_error_only_on_exhaustion :
    ∀ (r : NameResolver) (pid t tid : String) (ctx : Option String) (fc : Bool),
      r.resolve pid t tid ctx fc = none ↔
        ((r.check_collision (r.contextStep t tid ctx fc).1 tid).has_collision =
            true ∧
          ∀ n, 2 ≤ n → n ≤ 100 →
            suffixCandidate (r.contextStep t tid ctx fc).1 n ∈
              r.existingOf tid ++ r.plannedOf tid) :=
  fun _ _ _ _ _ _ => resolve_none_iff

/-- C9: Jaccard similarity is symmetric, lies in [0,1], and is 0 on
two empty sets. -/
theorem C9_jaccard_properties :
    ∀ (an : SimilarityAnalyzer) (A B : Finset String),
      an.jaccard_similarity A B = an.jaccard_similarity B A ∧
      0 ≤ an.jaccard_similarity A B ∧
      an.jaccard_similarity A B ≤ 1 ∧
      an.jaccard_similarity ∅ ∅ = 0 := by
  intro an A B
  have hcard : ((A ∩ B).card : ℚ) ≤ ((A ∪ B).card : ℚ) := by
    exact_mod_cast Finset.card_le_card
      (subset_trans Finset.inter_subset_left Finset.subset_union_left)
  refine ⟨?_, ?_, ?_, by simp [SimilarityAnalyzer.jaccard_similarity]⟩
  · simp only [SimilarityAnalyzer.jaccard_similarity,
      Finset.inter_comm A B, Finset.union_comm A B, and_comm]
  · unfold SimilarityAnalyzer.jaccard_similarity
    dsimp only
    split_ifs with h1 h2
    · exact le_refl 0
    · positivity
    · exact le_refl 0
  · unfold SimilarityAnalyzer.jaccard_similarity
    dsimp only
    split_ifs with h1 h2
    · exact zero_le_one
    · rw [div_le_one (by exact_mod_cast h2)]
      exact hcard
    · exact zero_le_one

/-- The Python `max(scores, key=scores.get)` fold returns either its
initial candidate or a list element with a strictly larger score. -/
theorem pickBest_eq_or (f : DocumentType → ℚ) :
    ∀ (l : List DocumentType) (b : DocumentType),
      pickBest f l b = b ∨ (pickBest f l b ∈ l ∧ f b < f (pickBest f l b)) := by
  intro l
  induction l with
  | nil => intro b; exact Or.inl rfl
  | cons t rest ih =>
    intro b
    simp only [pickBest]
    by_cases h : f b < f t
    · rw [if_pos h]
      rcases ih t with heq | ⟨hmem, hlt⟩
      · rw [heq]
        exact Or.inr ⟨List.mem_cons_self _ _, h⟩
      · exact Or.inr ⟨List.mem_cons_of_mem _ hmem, lt_trans h hlt⟩
    · rw [if_neg h]
      rcases ih b with heq | ⟨hmem, hlt⟩
      · exact Or.inl heq
      · exact Or.inr ⟨List.mem_cons_of_mem _ hmem, hlt⟩

/-- Every per-type score is nonnegative. -/
theorem scoreOf_nonneg (title content : String) (t : DocumentType) :
    0 ≤ scoreOf title content t := by
  unfold scoreOf
  have h1 : (0 : ℚ) ≤ (if (titleMatchFirst t title).isSome then 3/5 else 0) := by
    split_ifs <;> norm_num
  have h2 : (0 : ℚ) ≤
      (if content ≠ "" then
        (let keyword_count := (keywordHits t content).length
         if 0 < keyword_count then min ((keyword_count : ℚ) / 5) 1 * (2/5) else 0)
       else 0) := by
    dsimp only
    split_ifs with hc hk
    · have : (0 : ℚ) ≤ min (((keywordHits t content).length : ℚ) / 5) 1 := by
        apply le_min
        · positivity
        · norm_num
      linarith
    · exact le_refl 0
    · exact le_refl 0
  linarith

/-- Every per-type score is at most 1 (0.6 title + at most 0.4
keywords). -/
theorem scoreOf_le_one (title content : String) (t : DocumentType) :
    scoreOf title content t ≤ 1 := by
  unfold scoreOf
  have h1 : (if (titleMatchFirst t title).isSome then (3 : ℚ)/5 else 0) ≤ 3/5 := by
    split_ifs <;> norm_num
  have h2 : (if content ≠ "" then
        (let keyword_count := (keywordHits t content).length
         if 0 < keyword_count then min ((keyword_count : ℚ) / 5) 1 * (2/5) else 0)
       else 0) ≤ 2/5 := by
    dsimp only
    split_ifs with hc hk
    · have : min (((keywordHits t content).length : ℚ) / 5) 1 ≤ 1 := min_le_right _ _
      nlinarith
    · norm_num
    · norm_num
  linarith

/-- The uncategorized type has no patterns or keywords, hence always
scores 0. -/
theorem scoreOf_uncategorized (title content : String) :
    scoreOf title content DocumentType.UNCATEGORIZED = 0 := by
  unfold scoreOf titleMatchFirst keywordHits
  simp [TITLE_PATTERNS, CONTENT_KEYWORDS]

/-- The raw argmax of `classify` is never the uncategorized type: it
scores 0, the iteration starts at `SPRINT_REVIEW` (whose score is
`≥ 0`), and ties keep the earlier type. -/
theorem bestType_ne_uncategorized (title content : String) :
    bestType title content ≠ DocumentType.UNCATEGORIZED := by
  unfold bestType
  rcases pickBest_eq_or (scoreOf title content) allDocumentTypes.tail
      DocumentType.SPRINT_REVIEW with heq | ⟨_, hlt⟩
  · rw [heq]
    intro hcontra
    exact absurd hcontra (by decide)
  · intro hcontra
    rw [hcontra, scoreOf_uncategorized] at hlt
    have := scoreOf_nonneg title content DocumentType.SPRINT_REVIEW
    linarith

/-- C3: the classifier's confidence is in [0,1]; the returned type is
`uncategorized` exactly when the raw best per-type score is below the
configured minimum confidence; and in that case the confidence is 0. -/
theorem C3_classifier_confidence :
    ∀ (cl : DocumentClassifier) (title content parent_title : String),
      (0 ≤ (cl.classify title content parent_title).confidence ∧
        (cl.classify title content parent_title).confidence ≤ 1) ∧
      ((cl.classify title content parent_title).doc_type =
          DocumentType.UNCATEGORIZED ↔
        bestRawScore title content < cl.min_confidence) ∧
      ((cl.classify title content parent_title).doc_type =
          DocumentType.UNCATEGORIZED →
        (cl.classify title content parent_title).confidence = 0) := by
  intro cl title content pt
  simp only [DocumentClassifier.classify]
  by_cases hf : bestRawScore title content < cl.min_confidence
  · simp only [if_pos hf]
    refine ⟨⟨by norm_num, by norm_num⟩, ?_, fun _ => by norm_num⟩
    simp [hf]
  · simp only [if_neg hf]
    have hne := bestType_ne_uncategorized title content
    have hnn : 0 ≤ bestRawScore title content := scoreOf_nonneg _ _ _
    have hle : bestRawScore title content ≤ 1 := scoreOf_le_one _ _ _
    refine ⟨⟨?_, ?_⟩, ?_, ?_⟩
    · simp only [le_min_iff]
      exact ⟨hnn, by norm_num⟩
    · exact min_le_right _ _
    · simp [hne, hf]
    · intro hcontra
      exact absurd hcontra hne

/-- Witness for C3: on a title and content matching nothing, the
classifier returns `uncategorized` and confidence 0, via the inner
implication of C3 discharged by evaluation. -/
theorem C3_witness :
    (({} : DocumentClassifier).classify "zzz" "" "").confidence = 0 := by
  apply (C3_classifier_confidence {} "zzz" "" "").2.2
  have hz : ∀ t, scoreOf "zzz" "" t = 0 := by
    intro t
    have hm : (titleMatchFirst t "zzz").isSome = false := by cases t <;> rfl
    simp [scoreOf, hm]
  have hb : bestRawScore "zzz" "" < ({} : DocumentClassifier).min_confidence := by
    show bestRawScore "zzz" "" < 3/10
    unfold bestRawScore
    rw [hz]
    norm_num
  simp only [DocumentClassifier.classify]
  rw [if_pos hb]

/-- Witness for C7: with the base title and all 99 suffix candidates
" (2)" … " (100)" already present in the target folder, `resolve`
fails; obtained from the exhaustion direction of C7. -/
theorem C7_witness :
    NameResolver.resolve
      { existing_titles :=
          [("F", "T" :: (List.range 99).map (fun i => suffixCandidate "T" (i + 2)))] }
      "p" "T" "F" none false = none := by
  apply (C7_error_only_on_exhaustion _ "p" "T" "F" none false).mpr
  constructor
  · rfl
  · intro n h2 h100
    apply List.mem_append.mpr
    left
    show suffixCandidate "T" n ∈
      "T" :: (List.range 99).map (fun i => suffixCandidate "T" (i + 2))
    apply List.mem_cons_of_mem
    rw [List.mem_map]
    refine ⟨n - 2, List.mem_range.mpr (by omega), ?_⟩
    congr 1
    omega

/-- Lookup fails exactly off the key set. -/
theorem alGet_eq_none_iff {κ α : Type} [DecidableEq κ]
    {m : List (κ × α)} {k : κ} : alGet m k = none ↔ k ∉ alKeys m := by
  induction m with
  | nil => simp [alGet, alKeys]
  | cons kv rest ih =>
    obtain ⟨k0, v0⟩ := kv
    have hcons : alKeys ((k0, v0) :: rest) = k0 :: alKeys rest := rfl
    by_cases h0 : k0 = k
    · subst h0
      simp [alGet, hcons]
    · have hk0 : ¬ k = k0 := fun he => h0 he.symm
      simp only [alGet, if_neg h0, hcons, List.mem_cons, ih]
      constructor
      · intro hn
        intro hor
        rcases hor with he | hm
        · exact hk0 he
        · exact hn hm
      · intro hn hm
        exact hn (Or.inr hm)

/-- A present key looks up to some value. -/
theorem alGet_isSome_of_mem {κ α : Type} [DecidableEq κ]
    {m : List (κ × α)} {k : κ} (h : k ∈ alKeys m) :
    ∃ v, alGet m k = some v := by
  cases hv : alGet m k with
  | none => exact absurd (alGet_eq_none_iff.mp hv) (by simp [h])
  | some v => exact ⟨v, rfl⟩

/-- Key set after a write: unchanged for a present key, extended by
the key otherwise. -/
theorem alKeys_alSet {κ α : Type} [DecidableEq κ]
    (m : List (κ × α)) (k : κ) (v : α) :
    alKeys (alSet m k v) =
      if k ∈ alKeys m then alKeys m else alKeys m ++ [k] := by
  induction m with
  | nil => simp [alKeys, alSet]
  | cons kv rest ih =>
    obtain ⟨k0, v0⟩ := kv
    by_cases h0 : k0 = k
    · subst h0
      simp [alSet, alKeys]
    · have hk0 : ¬ k = k0 := fun he => h0 he.symm
      rw [show alSet ((k0, v0) :: rest) k v = (k0, v0) :: alSet rest k v from by
        simp [alSet, h0]]
      rw [show alKeys ((k0, v0) :: alSet rest k v) = k0 :: alKeys (alSet rest k v)
        from rfl]
      rw [ih]
      rw [show alKeys ((k0, v0) :: rest) = k0 :: alKeys rest from rfl]
      by_cases hm : k ∈ alKeys rest
      · simp [hm, hk0]
      · simp [hm, hk0]

/-- The parent of an absent node is itself. -/
theorem parentOf_not_mem {m : List (String × String)} {x : String}
    (h : x ∉ alKeys m) : parentOf m x = x := by
  unfold parentOf
  rw [alGet_eq_none_iff.mpr h]
  rfl

/-- A node whose parent differs from itself is a key. -/
theorem mem_of_parentOf_ne {m : List (String × String)} {x : String}
    (h : parentOf m x ≠ x) : x ∈ alKeys m := by
  by_contra hnm
  exact h (parentOf_not_mem hnm)

/-- The parent of a present node is a key, under closed values. -/
theorem parentOf_mem {m : List (String × String)}
    (hvals : ∀ x p, alGet m x = some p → p ∈ alKeys m) {x : String}
    (hx : x ∈ alKeys m) : parentOf m x ∈ alKeys m := by
  obtain ⟨v, hv⟩ := alGet_isSome_of_mem hx
  unfold parentOf
  rw [hv]
  exact hvals _ _ hv

/-- A root reaches itself. -/
theorem rootedAt_self {m : List (String × String)} {x : String}
    (h : parentOf m x = x) : RootedAt m x x :=
  ⟨⟨0, rfl⟩, h⟩

/-- Reaching a root through one parent step. -/
theorem rootedAt_step {m : List (String × String)} {x r : String}
    (h : RootedAt m (parentOf m x) r) : RootedAt m x r := by
  obtain ⟨⟨n, hn⟩, hr⟩ := h
  exact ⟨⟨n + 1, by rw [Function.iterate_succ_apply]; exact hn⟩, hr⟩

/-- The root reached from a node is unique. -/
theorem rootedAt_unique {m : List (String × String)} {x r s : String}
    (h1 : RootedAt m x r) (h2 : RootedAt m x s) : r = s := by
  obtain ⟨⟨n, hn⟩, hr⟩ := h1
  obtain ⟨⟨k, hk⟩, hs⟩ := h2
  rcases le_total n k with hle | hle
  · obtain ⟨d, rfl⟩ := Nat.exists_eq_add_of_le hle
    rw [Nat.add_comm, Function.iterate_add_apply, hn,
      Function.iterate_fixed hr] at hk
    exact hk
  · obtain ⟨d, rfl⟩ := Nat.exists_eq_add_of_le hle
    rw [Nat.add_comm, Function.iterate_add_apply, hk,
      Function.iterate_fixed hs] at hn
    exact hn.symm

/-- The root of a root is itself. -/
theorem rootedAt_root {m : List (String × String)} {x r : String}
    (h : RootedAt m x r) : RootedAt m r r :=
  ⟨⟨0, rfl⟩, h.2⟩

/-- `RootedAt` only depends on the pointwise parent function. -/
theorem rootedAt_congr {m1 m2 : List (String × String)}
    (h : ∀ y, parentOf m1 y = parentOf m2 y) {x r : String}
    (hr : RootedAt m1 x r) : RootedAt m2 x r := by
  have hf : parentOf m1 = parentOf m2 := funext h
  obtain ⟨⟨n, hn⟩, hroot⟩ := hr
  refine ⟨⟨n, ?_⟩, ?_⟩
  · rw [show (fun y => parentOf m2 y) = parentOf m2 from rfl, ← hf]
    exact hn
  · rw [← hf]
    exact hroot

/-- Parent function after a write, at the written key. -/
theorem parentOf_alSet_self (m : List (String × String)) (a b : String) :
    parentOf (alSet m a b) a = b := by
  unfold parentOf
  rw [alGet_alSet_self]
  rfl

/-- Parent function after a write, at other keys. -/
theorem parentOf_alSet_ne (m : List (String × String)) {y a : String}
    (b : String) (h : y ≠ a) : parentOf (alSet m a b) y = parentOf m y := by
  unfold parentOf
  rw [alGet_alSet_ne _ _ h]

/-- Path compression preserves every node's root: writing
`parent[a] := r` where `r` is `a`'s root keeps all reachability. -/
theorem rootedAt_compress {m : List (String × String)} {a r : String}
    (hbr : RootedAt m a r) :
    ∀ (n : Nat) (y s : String), (parentOf m)^[n] y = s → parentOf m s = s →
      RootedAt (alSet m a r) y s := by
  have hroot' : ∀ s, parentOf m s = s → parentOf (alSet m a r) s = s := by
    intro s hs
    by_cases hsa : s = a
    · subst hsa
      have : r = s := rootedAt_unique hbr (rootedAt_self hs)
      rw [parentOf_alSet_self, this]
    · rw [parentOf_alSet_ne _ _ hsa]
      exact hs
  intro n
  induction n with
  | zero =>
    intro y s hn hs
    rw [Function.iterate_zero_apply] at hn
    subst hn
    exact rootedAt_self (hroot' _ hs)
  | succ k ih =>
    intro y s hn hs
    by_cases hya : y = a
    · subst hya
      have hys : RootedAt m y s := ⟨⟨k + 1, hn⟩, hs⟩
      have hrs : r = s := rootedAt_unique hbr hys
      subst hrs
      have hroot2 := hroot' _ (rootedAt_root hbr).2
      refine ⟨⟨1, ?_⟩, hroot2⟩
      simp [parentOf_alSet_self]
    · rw [Function.iterate_succ_apply] at hn
      have hrec := ih (parentOf m y) s hn hs
      have hstep : parentOf (alSet m a r) y = parentOf m y :=
        parentOf_alSet_ne _ _ hya
      obtain ⟨⟨k', hk'⟩, hroot⟩ := hrec
      exact ⟨⟨k' + 1, by rw [Function.iterate_succ_apply, hstep]; exact hk'⟩, hroot⟩

/-- A union write `parent[rb] := ra` (both roots, distinct) maps every
node's root through `s ↦ if s = rb then ra else s`. -/
theorem rootedAt_union_write {m : List (String × String)} {ra rb : String}
    (hra : parentOf m ra = ra) (hrb : parentOf m rb = rb) (hne : rb ≠ ra) :
    ∀ (n : Nat) (y s : String), (parentOf m)^[n] y = s → parentOf m s = s →
      RootedAt (alSet m rb ra) y (if s = rb then ra else s) := by
  have hra' : parentOf (alSet m rb ra) ra = ra := by
    rw [parentOf_alSet_ne _ _ (fun hh => hne hh.symm)]
    exact hra
  have hrb' : RootedAt (alSet m rb ra) rb ra := by
    refine ⟨⟨1, ?_⟩, hra'⟩
    simp [parentOf_alSet_self]
  intro n
  induction n with
  | zero =>
    intro y s hn hs
    rw [Function.iterate_zero_apply] at hn
    subst hn
    by_cases hsrb : y = rb
    · subst hsrb
      rw [if_pos rfl]
      exact hrb'
    · rw [if_neg hsrb]
      refine rootedAt_self ?_
      rw [parentOf_alSet_ne _ _ hsrb]
      exact hs
  | succ k ih =>
    intro y s hn hs
    by_cases hyrb : y = rb
    · subst hyrb
      have : (parentOf m)^[k + 1] y = y := Function.iterate_fixed hrb _
      rw [this] at hn
      subst hn
      rw [if_pos rfl]
      exact hrb'
    · rw [Function.iterate_succ_apply] at hn
      have hrec := ih (parentOf m y) s hn hs
      obtain ⟨⟨k', hk'⟩, hroot⟩ := hrec
      refine ⟨⟨k' + 1, ?_⟩, hroot⟩
      rw [Function.iterate_succ_apply, parentOf_alSet_ne _ _ hyrb]
      exact hk'

/-- Inserting a fresh key as its own parent does not change the parent
function at all. -/
theorem parentOf_insert_self {m : List (String × String)} {x : String}
    (h : x ∉ alKeys m) : ∀ y, parentOf (alSet m x x) y = parentOf m y := by
  intro y
  by_cases hy : y = x
  · subst hy
    rw [parentOf_alSet_self, parentOf_not_mem h]
  · exact parentOf_alSet_ne _ _ hy

/-- Pigeonhole along parent chains: when some iterate of a node is a
root, an iterate within the key-count already is (chains visit
pairwise distinct keys). -/
theorem exists_short_chain {m : List (String × String)}
    (hnd : (alKeys m).Nodup) (x : String)
    (h : ∃ n, parentOf m ((parentOf m)^[n] x) = (parentOf m)^[n] x) :
    ∃ n ≤ m.length,
      parentOf m ((parentOf m)^[n] x) = (parentOf m)^[n] x := by
  classical
  let N := Nat.find h
  have hN : parentOf m ((parentOf m)^[N] x) = (parentOf m)^[N] x := Nat.find_spec h
  have hmin : ∀ i < N, parentOf m ((parentOf m)^[i] x) ≠ (parentOf m)^[i] x :=
    fun i hi => Nat.find_min h hi
  by_cases hle : N ≤ m.length
  · exact ⟨N, hle, hN⟩
  · exfalso
    push_neg at hle
    have hinj : Set.InjOn (fun i => (parentOf m)^[i] x) (Finset.range N) := by
      intro i hi j hj hij
      simp only [Finset.coe_range, Set.mem_Iio] at hi hj
      by_contra hne
      have hij' : (parentOf m)^[i] x = (parentOf m)^[j] x := hij
      rcases Nat.lt_or_ge i j with hlt | hge
      · have hper : (parentOf m)^[i + (N - j)] x = (parentOf m)^[j + (N - j)] x := by
          rw [Nat.add_comm i, Nat.add_comm j, Function.iterate_add_apply,
            Function.iterate_add_apply, hij']
        rw [show j + (N - j) = N by omega] at hper
        have hroot2 : parentOf m ((parentOf m)^[i + (N - j)] x) =
            (parentOf m)^[i + (N - j)] x := by
          rw [hper]
          exact hN
        exact hmin (i + (N - j)) (by omega) hroot2
      · have hlt : j < i := by omega
        have hper : (parentOf m)^[j + (N - i)] x = (parentOf m)^[i + (N - i)] x := by
          rw [Nat.add_comm j, Nat.add_comm i, Function.iterate_add_apply,
            Function.iterate_add_apply, hij']
        rw [show i + (N - i) = N by omega] at hper
        have hroot2 : parentOf m ((parentOf m)^[j + (N - i)] x) =
            (parentOf m)^[j + (N - i)] x := by
          rw [hper]
          exact hN
        exact hmin (j + (N - i)) (by omega) hroot2
    have hmaps : ∀ i ∈ Finset.range N, (parentOf m)^[i] x ∈ (alKeys m).toFinset := by
      intro i hi
      rw [Finset.mem_range] at hi
      rw [List.mem_toFinset]
      exact mem_of_parentOf_ne (hmin i hi)
    have hcard := Finset.card_le_card_of_injOn _ hmaps hinj
    rw [Finset.card_range] at hcard
    have : (alKeys m).toFinset.card = m.length := by
      rw [List.toFinset_card_of_nodup hnd]
      simp [alKeys]
    omega

/-- Reachability survives a compression write. -/
theorem rootedAt_compress_pres {m : List (String × String)} {a r : String}
    (hbr : RootedAt m a r) {y s : String}
    (h : RootedAt m y s) : RootedAt (alSet m a r) y s := by
  obtain ⟨⟨n, hn⟩, hs⟩ := h
  exact rootedAt_compress hbr n y s hn hs

/-- Full specification of the `find` recursion on a well-formed state
when the start node is a key: it returns the node's root, does not
change keys or ranks, keeps the state well-formed, and preserves every
reachability fact (path compression only shortcuts chains). -/
theorem findA_go_spec :
    ∀ (fuel n : Nat) (uf : UnionFind) (x r0 : String),
      UFInv uf → n < fuel →
      (parentOf uf.parent)^[n] x = r0 →
      parentOf uf.parent r0 = r0 →
      x ∈ alKeys uf.parent →
      ∃ uf', UnionFind.findA fuel uf x = (r0, uf') ∧
        alKeys uf'.parent = alKeys uf.parent ∧
        uf'.rank = uf.rank ∧
        UFInv uf' ∧
        r0 ∈ alKeys uf.parent ∧
        (∀ y s, RootedAt uf.parent y s → RootedAt uf'.parent y s) := by
  intro fuel
  induction fuel with
  | zero =>
    intro n uf x r0 _ h
    omega
  | succ f ih =>
    intro n uf x r0 hinv hn hchain hroot hx
    obtain ⟨v, hv⟩ := alGet_isSome_of_mem hx
    have hpar : parentOf uf.parent x = v := by
      unfold parentOf
      rw [hv]
      rfl
    have hrx : RootedAt uf.parent x r0 := ⟨⟨n, hchain⟩, hroot⟩
    by_cases hpx : v = x
    · have hxroot : parentOf uf.parent x = x := by rw [hpar, hpx]
      have hr0x : r0 = x := rootedAt_unique hrx (rootedAt_self hxroot)
      subst hr0x
      refine ⟨uf, ?_, rfl, rfl, hinv, hx, fun y s hy => hy⟩
      simp only [UnionFind.findA, hv]
      simp only [if_neg (Option.some_ne_none v)]
      simp only [hv, Option.getD_some]
      rw [if_pos hpx]
    · have hn0 : n ≠ 0 := by
        intro hcontra
        subst hcontra
        rw [Function.iterate_zero_apply] at hchain
        subst hchain
        rw [hroot] at hpar
        exact hpx hpar.symm
      obtain ⟨k, rfl⟩ := Nat.exists_eq_succ_of_ne_zero hn0
      rw [Function.iterate_succ_apply, hpar] at hchain
      have hvmem : v ∈ alKeys uf.parent := hinv.2.1 _ _ hv
      obtain ⟨uf1, hfind1, hkeys1, hrank1, hinv1, hr0mem, hpres1⟩ :=
        ih k uf v r0 hinv (by omega) hchain hroot hvmem
      have hxr0 : RootedAt uf1.parent x r0 := hpres1 _ _ hrx
      have heq : UnionFind.findA (f + 1) uf x =
          (r0, { uf1 with parent := alSet uf1.parent x r0 }) := by
        simp only [UnionFind.findA, hv]
        simp only [if_neg (Option.some_ne_none v)]
        simp only [hv, Option.getD_some]
        rw [if_neg hpx]
        rw [hfind1]
      refine ⟨_, heq, ?_, ?_, ?_, ?_, ?_⟩
      · show alKeys (alSet uf1.parent x r0) = alKeys uf.parent
        rw [alKeys_alSet, if_pos (hkeys1 ▸ hx), hkeys1]
      · exact hrank1
      · refine ⟨?_, ?_, ?_⟩
        · show (alKeys (alSet uf1.parent x r0)).Nodup
          rw [alKeys_alSet, if_pos (hkeys1 ▸ hx), hkeys1]
          exact hinv.1
        · intro z p' hz
          show p' ∈ alKeys (alSet uf1.parent x r0)
          rw [alKeys_alSet, if_pos (hkeys1 ▸ hx), hkeys1]
          by_cases hzx : z = x
          · subst hzx
            rw [alGet_alSet_self] at hz
            cases hz
            exact hr0mem
          · rw [alGet_alSet_ne _ _ (fun hh => hzx hh)] at hz
            exact hkeys1 ▸ hinv1.2.1 _ _ hz
        · intro y
          obtain ⟨s, hs⟩ := hinv1.2.2 y
          exact ⟨s, rootedAt_compress_pres hxr0 hs⟩
      · exact hr0mem
      · intro y s hy
        exact rootedAt_compress_pres hxr0 (hpres1 _ _ hy)

/-- Specification of `UnionFind.find`: the chosen fuel suffices; the
result is the (unique) root of the queried node; keys grow by at most
the inserted node; well-formedness and reachability are preserved. -/
theorem find_spec (uf : UnionFind) (x : String) (hinv : UFInv uf) :
    ∃ r0 uf', uf.find x = (r0, uf') ∧
      UFInv uf' ∧
      RootedAt uf'.parent x r0 ∧
      r0 ∈ alKeys uf'.parent ∧
      alKeys uf'.parent =
        (if x ∈ alKeys uf.parent then alKeys uf.parent
         else alKeys uf.parent ++ [x]) ∧
      (∀ y s, RootedAt uf.parent y s → RootedAt uf'.parent y s) := by
  by_cases hx : x ∈ alKeys uf.parent
  · obtain ⟨s0, hs0⟩ := hinv.2.2 x
    obtain ⟨⟨n0, hn0⟩, hroot0⟩ := hs0
    have hex : ∃ n, parentOf uf.parent ((parentOf uf.parent)^[n] x) =
        (parentOf uf.parent)^[n] x := by
      refine ⟨n0, ?_⟩
      rw [hn0]
      exact hroot0
    obtain ⟨n, hnle, hroot⟩ := exists_short_chain hinv.1 x hex
    have hlen : (alKeys uf.parent).length = uf.parent.length := by
      simp [alKeys]
    obtain ⟨uf', hfind, hkeys, hrank, hinv', hr0mem, hpres⟩ :=
      findA_go_spec (uf.parent.length + 1) n uf x _ hinv (by omega) rfl hroot hx
    refine ⟨_, uf', hfind, hinv', ?_, ?_, ?_, hpres⟩
    · exact hpres _ _ ⟨⟨n, rfl⟩, hroot⟩
    · rw [hkeys]
      exact hr0mem
    · rw [hkeys, if_pos hx]
  · have hnone : alGet uf.parent x = none := alGet_eq_none_iff.mpr hx
    have hpw := parentOf_insert_self hx
    have hkeys1 : alKeys (alSet uf.parent x x) = alKeys uf.parent ++ [x] := by
      rw [alKeys_alSet, if_neg hx]
    have heq : uf.find x =
        (x, { uf with parent := alSet uf.parent x x, rank := alSet uf.rank x 0 }) := by
      unfold UnionFind.find
      simp [UnionFind.findA, hnone, alGet_alSet_self]
    refine ⟨x, _, heq, ?_, ?_, ?_, ?_, ?_⟩
    · refine ⟨?_, ?_, ?_⟩
      · show (alKeys (alSet uf.parent x x)).Nodup
        rw [hkeys1]
        refine List.Nodup.append hinv.1 (by simp) ?_
        intro a ha hb
        simp only [List.mem_singleton] at hb
        subst hb
        exact hx ha
      · intro z p' hz
        show p' ∈ alKeys (alSet uf.parent x x)
        rw [hkeys1]
        by_cases hzx : z = x
        · subst hzx
          rw [alGet_alSet_self] at hz
          cases hz
          simp
        · rw [alGet_alSet_ne _ _ hzx] at hz
          exact List.mem_append_left _ (hinv.2.1 _ _ hz)
      · intro y
        obtain ⟨s, hs⟩ := hinv.2.2 y
        exact ⟨s, rootedAt_congr (fun z => (hpw z).symm) hs⟩
    · exact rootedAt_self (by rw [parentOf_alSet_self])
    · show x ∈ alKeys (alSet uf.parent x x)
      rw [hkeys1]
      simp
    · show alKeys (alSet uf.parent x x) = _
      rw [hkeys1, if_neg hx]
    · intro y s hy
      exact rootedAt_congr (fun z => (hpw z).symm) hy

/-- Reachability after a union write, packaged: every old root maps
through `s ↦ if s = rb then ra else s`. -/
theorem rootedAt_union_write_pres {m : List (String × String)} {ra rb : String}
    (hra : parentOf m ra = ra) (hrb : parentOf m rb = rb) (hne : rb ≠ ra)
    {y s : String} (h : RootedAt m y s) :
    RootedAt (alSet m rb ra) y (if s = rb then ra else s) := by
  obtain ⟨⟨n, hn⟩, hs⟩ := h
  exact rootedAt_union_write hra hrb hne n y s hn hs

/-- Well-formedness after a union write on two distinct member
roots. -/
theorem ufinv_union_write {uf : UnionFind} (hinv : UFInv uf) {ra rb : String}
    (hra : parentOf uf.parent ra = ra) (hrb : parentOf uf.parent rb = rb)
    (hne : rb ≠ ra) (hramem : ra ∈ alKeys uf.parent)
    (hrbmem : rb ∈ alKeys uf.parent) (rk : List (String × Nat)) :
    UFInv { parent := alSet uf.parent rb ra, rank := rk } := by
  have hkeys : alKeys (alSet uf.parent rb ra) = alKeys uf.parent := by
    rw [alKeys_alSet, if_pos hrbmem]
  refine ⟨?_, ?_, ?_⟩
  · show (alKeys (alSet uf.parent rb ra)).Nodup
    rw [hkeys]
    exact hinv.1
  · intro z p' hz
    show p' ∈ alKeys (alSet uf.parent rb ra)
    rw [hkeys]
    by_cases hzr : z = rb
    · subst hzr
      rw [alGet_alSet_self] at hz
      cases hz
      exact hramem
    · rw [alGet_alSet_ne _ _ hzr] at hz
      exact hinv.2.1 _ _ hz
  · intro z
    obtain ⟨s, hs⟩ := hinv.2.2 z
    exact ⟨_, rootedAt_union_write_pres hra hrb hne hs⟩

/-- Key membership is monotone under `find`. -/
theorem find_keys_mono {uf : UnionFind} {x : String} (hinv : UFInv uf)
    {r0 : String} {uf' : UnionFind} (h : uf.find x = (r0, uf')) :
    ∀ k, k ∈ alKeys uf.parent → k ∈ alKeys uf'.parent := by
  obtain ⟨r1, uf1, hfind, _, _, _, hkeys, _⟩ := find_spec uf x hinv
  rw [h] at hfind
  obtain ⟨rfl, rfl⟩ := Prod.mk.injEq _ _ _ _ ▸ hfind
  intro k hk
  rw [hkeys]
  split_ifs
  · exact hk
  · exact List.mem_append_left _ hk

/-- Specification of `UnionFind.union`: well-formedness is preserved,
nodes sharing a root keep sharing one, the two unioned nodes share a
root afterwards, and keys only grow. -/
theorem union_spec (uf : UnionFind) (x y : String) (hinv : UFInv uf) :
    UFInv (uf.union x y) ∧
    (∀ a b, (∃ s, RootedAt uf.parent a s ∧ RootedAt uf.parent b s) →
      ∃ u, RootedAt (uf.union x y).parent a u ∧
        RootedAt (uf.union x y).parent b u) ∧
    (∃ u, RootedAt (uf.union x y).parent x u ∧
      RootedAt (uf.union x y).parent y u) ∧
    (∀ k, k ∈ alKeys uf.parent → k ∈ alKeys (uf.union x y).parent) := by
  obtain ⟨rx, uf1, hfx, hinv1, hrxroot, hrxmem, hkeys1, hpres1⟩ := find_spec uf x hinv
  obtain ⟨ry, uf2, hfy, hinv2, hryroot, hrymem, hkeys2, hpres2⟩ :=
    find_spec uf1 y hinv1
  have hrx2 : RootedAt uf2.parent x rx := hpres2 _ _ hrxroot
  have hrxmem2 : rx ∈ alKeys uf2.parent := by
    rw [hkeys2]
    split_ifs
    · exact hrxmem
    · exact List.mem_append_left _ hrxmem
  have hkmono : ∀ k, k ∈ alKeys uf.parent → k ∈ alKeys uf2.parent := by
    intro k hk
    rw [hkeys2]
    have h1 : k ∈ alKeys uf1.parent := by
      rw [hkeys1]
      split_ifs
      · exact hk
      · exact List.mem_append_left _ hk
    split_ifs
    · exact h1
    · exact List.mem_append_left _ h1
  have hpres12 : ∀ a s, RootedAt uf.parent a s → RootedAt uf2.parent a s :=
    fun a s hs => hpres2 _ _ (hpres1 _ _ hs)
  have huni : uf.union x y =
      (if rx = ry then uf2
       else
        let rkx := (alGet uf2.rank rx).getD 0
        let rky := (alGet uf2.rank ry).getD 0
        let rx' := if rkx < rky then ry else rx
        let ry' := if rkx < rky then rx else ry
        let uf3 : UnionFind := { uf2 with parent := alSet uf2.parent ry' rx' }
        let rkx2 := (alGet uf3.rank rx').getD 0
        let rky2 := (alGet uf3.rank ry').getD 0
        if rkx2 = rky2 then { uf3 with rank := alSet uf3.rank rx' (rkx2 + 1) }
        else uf3) := by
    unfold UnionFind.union
    rw [hfx]
    simp only [hfy]
  by_cases heq : rx = ry
  · rw [huni, if_pos heq]
    refine ⟨hinv2, ?_, ?_, hkmono⟩
    · intro a b hab
      obtain ⟨s, hsa, hsb⟩ := hab
      exact ⟨s, hpres12 _ _ hsa, hpres12 _ _ hsb⟩
    · exact ⟨rx, hrx2, heq ▸ hryroot⟩
  · rw [huni, if_neg heq]
    by_cases hrk : (alGet uf2.rank rx).getD 0 < (alGet uf2.rank ry).getD 0
    · simp only [if_pos hrk]
      have hra : parentOf uf2.parent ry = ry := hryroot.2
      have hrb : parentOf uf2.parent rx = rx := hrx2.2
      have hinv3 := ufinv_union_write hinv2 hra hrb heq hrymem hrxmem2
      have hmap : ∀ {z s}, RootedAt uf2.parent z s →
          RootedAt (alSet uf2.parent rx ry) z (if s = rx then ry else s) :=
        fun hz => rootedAt_union_write_pres hra hrb heq hz
      have hkeys3 : alKeys (alSet uf2.parent rx ry) = alKeys uf2.parent := by
        rw [alKeys_alSet, if_pos hrxmem2]
      have hx' := hmap hrx2
      rw [if_pos rfl] at hx'
      have hy' := hmap hryroot
      rw [ite_self] at hy'
      refine ⟨?_, ?_, ?_, ?_⟩
      · split_ifs
        · exact hinv3 _
        · exact hinv3 _
      · intro a b hab
        obtain ⟨s, hsa, hsb⟩ := hab
        have ha := hmap (hpres12 _ _ hsa)
        have hb := hmap (hpres12 _ _ hsb)
        split_ifs
        · exact ⟨_, ha, hb⟩
        · exact ⟨_, ha, hb⟩
      · split_ifs
        · exact ⟨ry, hx', hy'⟩
        · exact ⟨ry, hx', hy'⟩
      · intro k hk
        split_ifs
        · show k ∈ alKeys (alSet uf2.parent rx ry)
          rw [hkeys3]
          exact hkmono _ hk
        · show k ∈ alKeys (alSet uf2.parent rx ry)
          rw [hkeys3]
          exact hkmono _ hk
    · simp only [if_neg hrk]
      have hra : parentOf uf2.parent rx = rx := hrx2.2
      have hrb : parentOf uf2.parent ry = ry := hryroot.2
      have hne' : ry ≠ rx := fun hh => heq hh.symm
      have hrymem2 : ry ∈ alKeys uf2.parent := hrymem
      have hinv3 := ufinv_union_write hinv2 hra hrb hne' hrxmem2 hrymem2
      have hmap : ∀ {z s}, RootedAt uf2.parent z s →
          RootedAt (alSet uf2.parent ry rx) z (if s = ry then rx else s) :=
        fun hz => rootedAt_union_write_pres hra hrb hne' hz
      have hkeys3 : alKeys (alSet uf2.parent ry rx) = alKeys uf2.parent := by
        rw [alKeys_alSet, if_pos hrymem2]
      have hx' := hmap hrx2
      rw [if_neg heq] at hx'
      have hy' := hmap hryroot
      rw [if_pos rfl] at hy'
      refine ⟨?_, ?_, ?_, ?_⟩
      · split_ifs
        · exact hinv3 _
        · exact hinv3 _
      · intro a b hab
        obtain ⟨s, hsa, hsb⟩ := hab
        have ha := hmap (hpres12 _ _ hsa)
        have hb := hmap (hpres12 _ _ hsb)
        split_ifs
        · exact ⟨_, ha, hb⟩
        · exact ⟨_, ha, hb⟩
      · split_ifs
        · exact ⟨rx, hx', hy'⟩
        · exact ⟨rx, hx', hy'⟩
      · intro k hk
        split_ifs
        · show k ∈ alKeys (alSet uf2.parent ry rx)
          rw [hkeys3]
          exact hkmono _ hk
        · show k ∈ alKeys (alSet uf2.parent ry rx)
          rw [hkeys3]
          exact hkmono _ hk

/-- The empty union-find is well-formed. -/
theorem ufinv_empty : UFInv {} := by
  refine ⟨by simp [alKeys], by intro x p h; simp [alGet] at h, ?_⟩
  intro x
  exact ⟨x, rootedAt_self (by unfold parentOf; simp [alGet])⟩

/-- The page-initialization fold keeps the state well-formed and puts
every page id among the keys. -/
theorem initFold_spec :
    ∀ (pages : List Page) (uf : UnionFind), UFInv uf →
      UFInv (pages.foldl (fun uf p => (uf.find p.id).2) uf) ∧
      (∀ p ∈ pages,
        p.id ∈ alKeys (pages.foldl (fun uf p => (uf.find p.id).2) uf).parent) ∧
      (∀ k, k ∈ alKeys uf.parent →
        k ∈ alKeys (pages.foldl (fun uf p => (uf.find p.id).2) uf).parent) := by
  intro pages
  induction pages with
  | nil => intro uf hinv; exact ⟨hinv, by simp, fun k hk => hk⟩
  | cons p rest ih =>
    intro uf hinv
    obtain ⟨r0, uf', hfind, hinv', _, _, hkeys, _⟩ := find_spec uf p.id hinv
    simp only [List.foldl_cons, hfind]
    obtain ⟨ih1, ih2, ih3⟩ := ih uf' hinv'
    have hidmem : p.id ∈ alKeys uf'.parent := by
      rw [hkeys]
      split_ifs with hx
      · exact hx
      · simp
    have hmono : ∀ k, k ∈ alKeys uf.parent → k ∈ alKeys uf'.parent := by
      intro k hk
      rw [hkeys]
      split_ifs
      · exact hk
      · exact List.mem_append_left _ hk
    refine ⟨ih1, ?_, fun k hk => ih3 _ (hmono _ hk)⟩
    intro q hq
    rcases List.mem_cons.mp hq with hh | ht
    · subst hh
      exact ih3 _ hidmem
    · exact ih2 _ ht

/-- The first component of the union/similarity fold is the plain
union fold. -/
theorem foldPair_fst :
    ∀ (l : List SimilarityResult) (uf : UnionFind)
      (ps : List ((String × String) × ℚ)),
      (l.foldl
        (fun acc res =>
          (acc.1.union res.page1_id res.page2_id,
           alSet acc.2 (pairKey res.page1_id res.page2_id)
             res.combined_similarity)) (uf, ps)).1 =
        l.foldl (fun u res => u.union res.page1_id res.page2_id) uf := by
  intro l
  induction l with
  | nil => intro uf ps; rfl
  | cons res rest ih => intro uf ps; exact ih _ _

/-- The union fold over qualifying pairs keeps well-formedness,
preserves shared roots, connects every listed pair, and only grows the
key set. -/
theorem unionFold_spec :
    ∀ (prs : List SimilarityResult) (uf : UnionFind), UFInv uf →
      UFInv (prs.foldl (fun u res => u.union res.page1_id res.page2_id) uf) ∧
      (∀ a b, (∃ s, RootedAt uf.parent a s ∧ RootedAt uf.parent b s) →
        ∃ u, RootedAt (prs.foldl
            (fun u res => u.union res.page1_id res.page2_id) uf).parent a u ∧
          RootedAt (prs.foldl
            (fun u res => u.union res.page1_id res.page2_id) uf).parent b u) ∧
      (∀ res ∈ prs,
        ∃ u, RootedAt (prs.foldl
            (fun u res => u.union res.page1_id res.page2_id) uf).parent
            res.page1_id u ∧
          RootedAt (prs.foldl
            (fun u res => u.union res.page1_id res.page2_id) uf).parent
            res.page2_id u) ∧
      (∀ k, k ∈ alKeys uf.parent →
        k ∈ alKeys (prs.foldl
          (fun u res => u.union res.page1_id res.page2_id) uf).parent) := by
  intro prs
  induction prs with
  | nil =>
    intro uf hinv
    exact ⟨hinv, fun a b h => h, by simp, fun k hk => hk⟩
  | cons res rest ih =>
    intro uf hinv
    obtain ⟨hinv1, hpres1, hconn1, hkeys1⟩ := union_spec uf res.page1_id res.page2_id hinv
    obtain ⟨ih1, ih2, ih3, ih4⟩ := ih _ hinv1
    simp only [List.foldl_cons]
    refine ⟨ih1, ?_, ?_, ?_⟩
    · intro a b hab
      exact ih2 _ _ (hpres1 _ _ hab)
    · intro q hq
      rcases List.mem_cons.mp hq with hh | ht
      · subst hh
        exact ih2 _ _ hconn1
      · exact ih3 _ ht
    · intro k hk
      exact ih4 _ (hkeys1 _ hk)

/-- Group members only accumulate during the grouping loop. -/
theorem getGroupsGo_mono :
    ∀ (ks : List String) (uf : UnionFind)
      (groups : List (String × List String)) (root x : String),
      x ∈ (alGet groups root).getD [] →
      x ∈ (alGet (UnionFind.getGroupsGo uf ks groups).1 root).getD [] := by
  intro ks
  induction ks with
  | nil => intro uf groups root x h; exact h
  | cons k rest ih =>
    intro uf groups root x h
    simp only [UnionFind.getGroupsGo]
    apply ih
    by_cases hr : (uf.find k).1 = root
    · rw [hr, alGet_alSet_self]
      simp only [Option.getD_some]
      exact List.mem_append_left _ h
    · rw [alGet_alSet_ne _ _ (fun hh => hr hh.symm)]
      exact h

/-- Every processed key lands in the member list of its root. -/
theorem getGroupsGo_mem :
    ∀ (ks : List String) (uf : UnionFind)
      (groups : List (String × List String)) (R : List (String × String)),
      UFInv uf →
      (∀ y s, RootedAt R y s → RootedAt uf.parent y s) →
      ∀ x s, x ∈ ks → RootedAt R x s →
        x ∈ (alGet (UnionFind.getGroupsGo uf ks groups).1 s).getD [] := by
  intro ks
  induction ks with
  | nil => intro uf groups R _ _ x s hx; exact absurd hx (by simp)
  | cons k rest ih =>
    intro uf groups R hinv hpres x s hx hroot
    obtain ⟨r0, uf', hfind, hinv', hr0, _, _, hpres'⟩ := find_spec uf k hinv
    simp only [UnionFind.getGroupsGo, hfind]
    rcases List.mem_cons.mp hx with hh | ht
    · subst hh
      have hxs : RootedAt uf'.parent x s := hpres' _ _ (hpres _ _ hroot)
      have : r0 = s := rootedAt_unique hr0 hxs
      subst this
      apply getGroupsGo_mono
      rw [alGet_alSet_self]
      simp
    · exact ih uf' _ R hinv' (fun y s' hy => hpres' _ _ (hpres _ _ hy)) x s ht hroot

/-- A successful lookup exhibits a list entry. -/
theorem alGet_some_mem {κ α : Type} [DecidableEq κ]
    {m : List (κ × α)} {k : κ} {v : α} (h : alGet m k = some v) : (k, v) ∈ m := by
  induction m with
  | nil => simp [alGet] at h
  | cons kv rest ih =>
    obtain ⟨k0, v0⟩ := kv
    by_cases h0 : k0 = k
    · subst h0
      rw [show alGet ((k0, v0) :: rest) k0 = some v0 from by simp [alGet]] at h
      cases h
      exact List.mem_cons_self _ _
    · rw [show alGet ((k0, v0) :: rest) k = alGet rest k from by simp [alGet, h0]] at h
      exact List.mem_cons_of_mem _ (ih h)

/-- A list with two distinct members has length at least two. -/
theorem two_le_length_of_two_mem {α : Type} {l : List α} {a b : α}
    (ha : a ∈ l) (hb : b ∈ l) (hne : a ≠ b) : 2 ≤ l.length := by
  cases l with
  | nil => simp at ha
  | cons x t =>
    cases t with
    | nil =>
      simp only [List.mem_singleton] at ha hb
      exact absurd (ha.trans hb.symm) hne
    | cons y u =>
      simp only [List.length_cons]
      omega

/-- Every stored bucket with at least two members produces a
similarity group carrying exactly its member list. -/
theorem buildGroupsGo_mem :
    ∀ (raw : List (String × List String)) (gid : Nat)
      (an : SimilarityAnalyzer) (thr : ℚ) (pl : List (String × Page))
      (psims : List ((String × String) × ℚ)) (s : String) (l : List String),
      (s, l) ∈ raw → 2 ≤ l.length →
      ∃ g ∈ buildGroupsGo an thr pl psims raw gid, g.page_ids = l := by
  intro raw
  induction raw with
  | nil => intro gid an thr pl psims s l h; simp at h
  | cons entry rest ih =>
    intro gid an thr pl psims s l hmem hlen
    obtain ⟨s0, l0⟩ := entry
    rcases List.mem_cons.mp hmem with hh | ht
    · obtain ⟨rfl, rfl⟩ := Prod.mk.injEq _ _ _ _ ▸ hh
      simp only [buildGroupsGo]
      rw [if_neg (by omega)]
      exact ⟨_, List.mem_cons_self _ _, rfl⟩
    · simp only [buildGroupsGo]
      by_cases hskip : l0.length < 2
      · rw [if_pos hskip]
        exact ih gid an thr pl psims s l ht hlen
      · rw [if_neg hskip]
        obtain ⟨g, hg, hgl⟩ := ih (gid + 1) an thr pl psims s l ht hlen
        exact ⟨g, List.mem_cons_of_mem _ hg, hgl⟩

/-- Membership through stable descending insertion. -/
theorem mem_insertDescBy {α κ : Type} [LinearOrder κ] (key : α → κ)
    (x y : α) (l : List α) :
    x ∈ insertDescBy key y l ↔ x = y ∨ x ∈ l := by
  induction l with
  | nil => simp [insertDescBy]
  | cons z t ih =>
    by_cases hk : key y ≤ key z
    · rw [show insertDescBy key y (z :: t) = z :: insertDescBy key y t from by
        simp [insertDescBy, hk]]
      simp only [List.mem_cons, ih]
      tauto
    · rw [show insertDescBy key y (z :: t) = y :: z :: t from by
        simp [insertDescBy, hk]]
      simp only [List.mem_cons]

/-- Membership is preserved by the stable descending sort. -/
theorem mem_sortDescBy_of_mem {α κ : Type} [LinearOrder κ] {key : α → κ}
    {g : α} {l : List α} (h : g ∈ l) : g ∈ sortDescBy key l := by
  unfold sortDescBy
  suffices hgen : ∀ (l' : List α) (acc : List α),
      g ∈ acc ∨ g ∈ l' → g ∈ l'.foldl (fun acc x => insertDescBy key x acc) acc by
    exact hgen l [] (Or.inr h)
  intro l'
  induction l' with
  | nil =>
    intro acc hacc
    rcases hacc with ha | hb
    · exact ha
    · simp at hb
  | cons z t ih =>
    intro acc hacc
    simp only [List.foldl_cons]
    apply ih
    rcases hacc with ha | hb
    · exact Or.inl ((mem_insertDescBy key g z acc).mpr (Or.inr ha))
    · rcases List.mem_cons.mp hb with hh | ht
      · exact Or.inl ((mem_insertDescBy key g z acc).mpr (Or.inl hh))
      · exact Or.inr ht

/-- Jaccard similarity is symmetric in its two token sets. -/
theorem jaccard_comm (an : SimilarityAnalyzer) (s1 s2 : Finset String) :
    an.jaccard_similarity s1 s2 = an.jaccard_similarity s2 s1 := by
  simp only [SimilarityAnalyzer.jaccard_similarity,
    Finset.inter_comm s1 s2, Finset.union_comm s1 s2, and_comm]

/-- Jaccard similarity is nonnegative. -/
theorem jaccard_nonneg (an : SimilarityAnalyzer) (s1 s2 : Finset String) :
    0 ≤ an.jaccard_similarity s1 s2 := by
  unfold SimilarityAnalyzer.jaccard_similarity
  dsimp only
  split_ifs with h1 h2
  · exact le_refl 0
  · positivity
  · exact le_refl 0

/-- Unfolding equation for `compare`'s combined score. -/
theorem compare_combined_eq (an : SimilarityAnalyzer) (p q : Page) :
    (an.compare p q).combined_similarity =
      an.jaccard_similarity (an.tokenize p.title) (an.tokenize q.title) *
          an.title_weight +
        (if p.body ≠ "" ∧ q.body ≠ "" then
          an.jaccard_similarity (an.extract_keywords p.body)
            (an.extract_keywords q.body)
         else 0) * an.content_weight := rfl

/-- The combined score of `compare` is symmetric in the two pages. -/
theorem compare_combined_comm (an : SimilarityAnalyzer) (p q : Page) :
    (an.compare p q).combined_similarity =
      (an.compare q p).combined_similarity := by
  rw [compare_combined_eq, compare_combined_eq,
    jaccard_comm an (an.tokenize p.title) (an.tokenize q.title)]
  by_cases hp : p.body = ""
  · rw [if_neg (fun h => h.1 hp), if_neg (fun h => h.2 hp)]
  · by_cases hq : q.body = ""
    · rw [if_neg (fun h => h.2 hq), if_neg (fun h => h.1 hq)]
    · rw [if_pos ⟨hp, hq⟩, if_pos ⟨hq, hp⟩,
        jaccard_comm an (an.extract_keywords p.body) (an.extract_keywords q.body)]

/-- With nonnegative weights, the combined score is nonnegative. -/
theorem compare_combined_nonneg (an : SimilarityAnalyzer)
    (h1 : 0 ≤ an.title_weight) (h2 : 0 ≤ an.content_weight) (p q : Page) :
    0 ≤ (an.compare p q).combined_similarity := by
  rw [compare_combined_eq]
  have ht := jaccard_nonneg an (an.tokenize p.title) (an.tokenize q.title)
  have hc : 0 ≤ (if p.body ≠ "" ∧ q.body ≠ "" then
      an.jaccard_similarity (an.extract_keywords p.body)
        (an.extract_keywords q.body) else 0) := by
    split_ifs
    · exact jaccard_nonneg _ _ _
    · exact le_refl 0
  exact add_nonneg (mul_nonneg ht h1) (mul_nonneg hc h2)

/-- Two distinct members of a list form a pair in `allPairs`, in one
of the two orders. -/
theorem mem_allPairs_of_ne {α : Type} {x y : α} :
    ∀ {l : List α}, x ∈ l → y ∈ l → x ≠ y →
      (x, y) ∈ allPairs l ∨ (y, x) ∈ allPairs l := by
  intro l
  induction l with
  | nil => intro hx _ _; simp at hx
  | cons z t ih =>
    intro hx hy hne
    rcases List.mem_cons.mp hx with rfl | hxt
    · have hyt : y ∈ t := by
        rcases List.mem_cons.mp hy with h | h
        · exact absurd h.symm hne
        · exact h
      left
      simp only [allPairs]
      exact List.mem_append_left _ (List.mem_map.mpr ⟨y, hyt, rfl⟩)
    · rcases List.mem_cons.mp hy with rfl | hyt
      · right
        simp only [allPairs]
        exact List.mem_append_left _ (List.mem_map.mpr ⟨x, hxt, rfl⟩)
      · rcases ih hxt hyt hne with h | h
        · left
          simp only [allPairs]
          exact List.mem_append_right _ h
        · right
          simp only [allPairs]
          exact List.mem_append_right _ h

/-- Any qualifying pair of distinct pages shows up (in one order) in
`find_similar_pairs`. -/
theorem find_similar_pairs_cover (an : SimilarityAnalyzer) (pages : List Page)
    (t : ℚ) {x y : Page} (hx : x ∈ pages) (hy : y ∈ pages) (hne : x ≠ y)
    (hs : t ≤ (an.compare x y).combined_similarity) :
    ∃ res ∈ an.find_similar_pairs pages (some t),
      (res.page1_id = x.id ∧ res.page2_id = y.id) ∨
      (res.page1_id = y.id ∧ res.page2_id = x.id) := by
  have hunf : an.find_similar_pairs pages (some t) =
      sortDescBy SimilarityResult.combined_similarity
        (((allPairs pages).map (fun pq => an.compare pq.1 pq.2)).filter
          (fun res => t ≤ res.combined_similarity)) := rfl
  rcases mem_allPairs_of_ne hx hy hne with hp | hp
  · refine ⟨an.compare x y, ?_, Or.inl ⟨rfl, rfl⟩⟩
    rw [hunf]
    apply mem_sortDescBy_of_mem
    exact List.mem_filter.mpr
      ⟨List.mem_map.mpr ⟨(x, y), hp, rfl⟩, by simpa using hs⟩
  · refine ⟨an.compare y x, ?_, Or.inr ⟨rfl, rfl⟩⟩
    rw [hunf]
    apply mem_sortDescBy_of_mem
    have hs2 : t ≤ (an.compare y x).combined_similarity := by
      rw [← compare_combined_comm an x y]
      exact hs
    exact List.mem_filter.mpr
      ⟨List.mem_map.mpr ⟨(y, x), hp, rfl⟩, by simpa using hs2⟩

/-- C5: similarity grouping is transitive under the union-find: for
any page list and threshold, if `compare(A,B)` and `compare(B,C)` both
reach the threshold, `group_similar` places the ids of A, B and C in
one and the same similarity group (no hypothesis relates A and C). -/
theorem C5_grouping_transitive (an : SimilarityAnalyzer) (pages : List Page)
    (t : ℚ) (A B C : Page)
    (hA : A ∈ pages) (hB : B ∈ pages) (hC : C ∈ pages)
    (hab : A.id ≠ B.id) (hbc : B.id ≠ C.id) (hac : A.id ≠ C.id)
    (hsAB : t ≤ (an.compare A B).combined_similarity)
    (hsBC : t ≤ (an.compare B C).combined_similarity) :
    ∃ g ∈ an.group_similar pages (some t),
      A.id ∈ g.page_ids ∧ B.id ∈ g.page_ids ∧ C.id ∈ g.page_ids := by
  have hABne : A ≠ B := fun h => hab (congrArg Page.id h)
  have hBCne : B ≠ C := fun h => hbc (congrArg Page.id h)
  have hgs : an.group_similar pages (some t) =
      sortDescBy SimilarityGroup.avg_similarity
        (buildGroupsGo an t (pages.foldl (fun m p => alSet m p.id p) [])
          ((an.find_similar_pairs pages (some t)).foldl
            (fun (acc : UnionFind × List ((String × String) × ℚ)) res =>
              (acc.1.union res.page1_id res.page2_id,
               alSet acc.2 (pairKey res.page1_id res.page2_id)
                 res.combined_similarity))
            (pages.foldl (fun (uf : UnionFind) p => (uf.find p.id).2) {}, [])).2
          (((an.find_similar_pairs pages (some t)).foldl
            (fun (acc : UnionFind × List ((String × String) × ℚ)) res =>
              (acc.1.union res.page1_id res.page2_id,
               alSet acc.2 (pairKey res.page1_id res.page2_id)
                 res.combined_similarity))
            (pages.foldl (fun (uf : UnionFind) p => (uf.find p.id).2) {},
              [])).1.get_groups.1)
          0) := rfl
  have hfst := foldPair_fst (an.find_similar_pairs pages (some t))
    (pages.foldl (fun uf p => (uf.find p.id).2) {}) []
  rw [hfst] at hgs
  obtain ⟨hinv0, hmem0, -⟩ := initFold_spec pages {} ufinv_empty
  obtain ⟨hinvF, -, hconnF, hkeysF⟩ :=
    unionFold_spec (an.find_similar_pairs pages (some t))
      (pages.foldl (fun uf p => (uf.find p.id).2) {}) hinv0
  set F := (an.find_similar_pairs pages (some t)).foldl
    (fun (u : UnionFind) res => u.union res.page1_id res.page2_id)
    (pages.foldl (fun (uf : UnionFind) p => (uf.find p.id).2)
      ({} : UnionFind)) with hFdef
  obtain ⟨r1, hr1A, hr1B⟩ :
      ∃ u, RootedAt F.parent A.id u ∧ RootedAt F.parent B.id u := by
    obtain ⟨res, hres, hids⟩ := find_similar_pairs_cover an pages t hA hB hABne hsAB
    obtain ⟨u, h1, h2⟩ := hconnF res hres
    rcases hids with ⟨e1, e2⟩ | ⟨e1, e2⟩
    · exact ⟨u, e1 ▸ h1, e2 ▸ h2⟩
    · exact ⟨u, e2 ▸ h2, e1 ▸ h1⟩
  obtain ⟨r2, hr2B, hr2C⟩ :
      ∃ u, RootedAt F.parent B.id u ∧ RootedAt F.parent C.id u := by
    obtain ⟨res, hres, hids⟩ := find_similar_pairs_cover an pages t hB hC hBCne hsBC
    obtain ⟨u, h1, h2⟩ := hconnF res hres
    rcases hids with ⟨e1, e2⟩ | ⟨e1, e2⟩
    · exact ⟨u, e1 ▸ h1, e2 ▸ h2⟩
    · exact ⟨u, e2 ▸ h2, e1 ▸ h1⟩
  have hre : r1 = r2 := rootedAt_unique hr1B hr2B
  subst hre
  have hAk : A.id ∈ alKeys F.parent := hkeysF _ (hmem0 A hA)
  have hBk : B.id ∈ alKeys F.parent := hkeysF _ (hmem0 B hB)
  have hCk : C.id ∈ alKeys F.parent := hkeysF _ (hmem0 C hC)
  have hgg : F.get_groups.1 = (UnionFind.getGroupsGo F (alKeys F.parent) []).1 := rfl
  have hAg : A.id ∈ (alGet F.get_groups.1 r1).getD [] := by
    rw [hgg]
    exact getGroupsGo_mem (alKeys F.parent) F [] F.parent hinvF
      (fun y s h => h) A.id r1 hAk hr1A
  have hBg : B.id ∈ (alGet F.get_groups.1 r1).getD [] := by
    rw [hgg]
    exact getGroupsGo_mem (alKeys F.parent) F [] F.parent hinvF
      (fun y s h => h) B.id r1 hBk hr1B
  have hCg : C.id ∈ (alGet F.get_groups.1 r1).getD [] := by
    rw [hgg]
    exact getGroupsGo_mem (alKeys F.parent) F [] F.parent hinvF
      (fun y s h => h) C.id r1 hCk hr2C
  cases halg : alGet F.get_groups.1 r1 with
  | none =>
    rw [halg] at hAg
    simp at hAg
  | some l =>
    rw [halg] at hAg hBg hCg
    simp only [Option.getD_some] at hAg hBg hCg
    have hrl : (r1, l) ∈ F.get_groups.1 := alGet_some_mem halg
    have hlen : 2 ≤ l.length := two_le_length_of_two_mem hAg hBg hab
    obtain ⟨g, hg, hgl⟩ := buildGroupsGo_mem F.get_groups.1 0 an t
      (pages.foldl (fun m p => alSet m p.id p) [])
      ((an.find_similar_pairs pages (some t)).foldl
        (fun (acc : UnionFind × List ((String × String) × ℚ)) res =>
          (acc.1.union res.page1_id res.page2_id,
           alSet acc.2 (pairKey res.page1_id res.page2_id)
             res.combined_similarity))
        (pages.foldl (fun (uf : UnionFind) p => (uf.find p.id).2) {}, [])).2
      r1 l hrl hlen
    refine ⟨g, ?_, ?_, ?_, ?_⟩
    · rw [hgs]
      exact mem_sortDescBy_of_mem hg
    · rw [hgl]
      exact hAg
    · rw [hgl]
      exact hBg
    · rw [hgl]
      exact hCg

/-- Witness for C5 at the three concrete fixture pages with threshold 0. -/
theorem C5_witness :
    ∃ g ∈ SimilarityAnalyzer.group_similar {}
        [fixturePageA, fixturePageB, fixturePageC] (some 0),
      fixturePageA.id ∈ g.page_ids ∧ fixturePageB.id ∈ g.page_ids ∧
        fixturePageC.id ∈ g.page_ids := by
  have hw1 : (0 : ℚ) ≤ ({} : SimilarityAnalyzer).title_weight := by
    rw [show ({} : SimilarityAnalyzer).title_weight = 2/5 from rfl]
    norm_num
  have hw2 : (0 : ℚ) ≤ ({} : SimilarityAnalyzer).content_weight := by
    rw [show ({} : SimilarityAnalyzer).content_weight = 3/5 from rfl]
    norm_num
  exact C5_grouping_transitive {} [fixturePageA, fixturePageB, fixturePageC] 0
    fixturePageA fixturePageB fixturePageC
    (List.mem_cons_self _ _)
    (List.mem_cons_of_mem _ (List.mem_cons_self _ _))
    (List.mem_cons_of_mem _ (List.mem_cons_of_mem _ (List.mem_cons_self _ _)))
    (by decide) (by decide) (by decide)
    (compare_combined_nonneg {} hw1 hw2 fixturePageA fixturePageB)
    (compare_combined_nonneg {} hw1 hw2 fixturePageB fixturePageC)

/-- C10: `propose` emits exactly one `PageMove` per input page (so
`total_pages` equals the number of moves), and every move targets one
of the seven typed/uncategorized canonical folders — never
`99-Archive`. -/
theorem C10_one_move_per_page (sp : StructureProposer)
    (pid pt sid : String) (pages : List Page) (efs : List Folder)
    (P : RestructureProposal)
    (h : sp.propose pid pt sid pages efs = some P) :
    P.total_pages = pages.length ∧
    P.pages_to_move.length = pages.length ∧
    ∀ m ∈ P.pages_to_move,
      m.target_folder_name ∈
        ["01-Sprint-Reviews", "02-Design-Notes", "03-Story-Notes",
         "04-Meeting-Notes", "05-Retrospectives", "06-Technical-Docs",
         "99-Uncategorized"] ∧
      m.target_folder_name ≠ "99-Archive" := by
  obtain ⟨h1, h2, h3, -⟩ := propose_pages_to_move_spec h
  refine ⟨h1, h2, ?_⟩
  intro m hm
  obtain ⟨t, ht⟩ := h3 m hm
  rw [ht]
  cases t <;> exact ⟨by decide, by decide⟩

/-- Witness for C10: the empty-page proposal, with the hypothesis
discharged by evaluation. -/
theorem C10_witness :
    StructureProposer.propose {} "p" "pt" "s" [] [] =
      some ((StructureProposer.propose {} "p" "pt" "s" [] []).getD
        { parent_id := "", parent_title := "", space_id := "" }) ∧
    (((StructureProposer.propose {} "p" "pt" "s" [] []).getD
        { parent_id := "", parent_title := "", space_id := "" }).total_pages =
      ([] : List Page).length ∧
     ((StructureProposer.propose {} "p" "pt" "s" [] []).getD
        { parent_id := "", parent_title := "", space_id := "" }).pages_to_move.length =
      ([] : List Page).length ∧
     ∀ m ∈ ((StructureProposer.propose {} "p" "pt" "s" [] []).getD
        { parent_id := "", parent_title := "", space_id := "" }).pages_to_move,
       m.target_folder_name ∈
         ["01-Sprint-Reviews", "02-Design-Notes", "03-Story-Notes",
          "04-Meeting-Notes", "05-Retrospectives", "06-Technical-Docs",
          "99-Uncategorized"] ∧
       m.target_folder_name ≠ "99-Archive") :=
  ⟨rfl,
   C10_one_move_per_page {} "p" "pt" "s" [] []
     ((StructureProposer.propose {} "p" "pt" "s" [] []).getD
       { parent_id := "", parent_title := "", space_id := "" }) rfl⟩

/-- Specification of the folder-creation pass: counts, sequential
operation ids and the shape of every emitted operation. -/
theorem mkFolderOps_spec (proposal : RestructureProposal) :
    ∀ (fcs : List FolderCreation) (n : Nat) (ids : List (String × Nat)),
      (mkFolderOps proposal fcs n ids).1.length = fcs.length ∧
      (mkFolderOps proposal fcs n ids).2.2 = n + fcs.length ∧
      (∀ k (hk : k < (mkFolderOps proposal fcs n ids).1.length),
        ((mkFolderOps proposal fcs n ids).1.get ⟨k, hk⟩).operation_id = n + k) ∧
      (∀ op ∈ (mkFolderOps proposal fcs n ids).1,
        op.operation_type = "create_folder" ∧ op.depends_on = [] ∧
        n ≤ op.operation_id ∧ op.operation_id < n + fcs.length) := by
  intro fcs
  induction fcs with
  | nil =>
    intro n ids
    exact ⟨rfl, rfl, fun k hk => absurd hk (by simp [mkFolderOps]),
      fun op hop => absurd hop (by simp [mkFolderOps])⟩
  | cons folder rest ih =>
    intro n ids
    obtain ⟨ih1, ih2, ih3, ih4⟩ := ih (n + 1) (alSet ids folder.folder_name n)
    refine ⟨?_, ?_, ?_, ?_⟩
    · simp only [mkFolderOps]
      simp only [List.length_cons, ih1]
    · simp only [mkFolderOps, List.length_cons]
      rw [ih2]
      omega
    · intro k hk
      simp only [mkFolderOps] at hk ⊢
      cases k with
      | zero => rfl
      | succ k =>
        simp only [List.length_cons] at hk
        have hk' : k < (mkFolderOps proposal rest (n + 1)
            (alSet ids folder.folder_name n)).1.length := by omega
        have := ih3 k hk'
        simp only [List.get_cons_succ]
        rw [this]
        omega
    · intro op hop
      simp only [mkFolderOps, List.mem_cons] at hop
      rcases hop with rfl | hop
      · exact ⟨rfl, rfl, le_refl n, by simp [List.length_cons]⟩
      · obtain ⟨t1, t2, t3, t4⟩ := ih4 op hop
        refine ⟨t1, t2, by omega, ?_⟩
        simp only [List.length_cons]
        omega

/-- A folder name not occurring in the processed list leaves the id
map untouched. -/
theorem mkFolderOps_untouched (proposal : RestructureProposal) :
    ∀ (fcs : List FolderCreation) (n : Nat) (ids : List (String × Nat))
      (name : String),
      name ∉ fcs.map FolderCreation.folder_name →
      alGet (mkFolderOps proposal fcs n ids).2.1 name = alGet ids name := by
  intro fcs
  induction fcs with
  | nil => intro n ids name _; rfl
  | cons folder rest ih =>
    intro n ids name hname
    simp only [List.map_cons, List.mem_cons, not_or] at hname
    obtain ⟨hne, hrest⟩ := hname
    simp only [mkFolderOps]
    rw [ih (n + 1) (alSet ids folder.folder_name n) name hrest,
      alGet_alSet_ne ids n hne]

/-- Every folder name in the list ends up mapped to the id of one of
the emitted `create_folder` operations carrying that name. -/
theorem mkFolderOps_ids (proposal : RestructureProposal) :
    ∀ (fcs : List FolderCreation) (n : Nat) (ids : List (String × Nat))
      (name : String),
      name ∈ fcs.map FolderCreation.folder_name →
      ∃ v, alGet (mkFolderOps proposal fcs n ids).2.1 name = some v ∧
        ∃ op ∈ (mkFolderOps proposal fcs n ids).1,
          op.operation_id = v ∧ op.operation_type = "create_folder" ∧
          ("folder_name", name) ∈ op.operation_data := by
  intro fcs
  induction fcs with
  | nil => intro n ids name h; simp at h
  | cons folder rest ih =>
    intro n ids name hname
    by_cases hrest : name ∈ rest.map FolderCreation.folder_name
    · obtain ⟨v, hv, op, hop, hid, hty, hdata⟩ :=
        ih (n + 1) (alSet ids folder.folder_name n) name hrest
      exact ⟨v, hv, op, List.mem_cons_of_mem _ hop, hid, hty, hdata⟩
    · have hne : name = folder.folder_name := by
        simp only [List.map_cons, List.mem_cons] at hname
        tauto
      subst hne
      refine ⟨n, ?_, ?_⟩
      · simp only [mkFolderOps]
        rw [mkFolderOps_untouched proposal rest (n + 1)
          (alSet ids folder.folder_name n) folder.folder_name hrest,
          alGet_alSet_self]
      · simp only [mkFolderOps]
        refine ⟨_, List.mem_cons_self _ _, rfl, rfl, ?_⟩
        simp

/-- Values of the folder-id map are either inherited or fresh ids of
this pass. -/
theorem mkFolderOps_idmap (proposal : RestructureProposal) :
    ∀ (fcs : List FolderCreation) (n : Nat) (ids : List (String × Nat))
      (name : String) (v : Nat),
      alGet (mkFolderOps proposal fcs n ids).2.1 name = some v →
      alGet ids name = some v ∨ (n ≤ v ∧ v < n + fcs.length) := by
  intro fcs
  induction fcs with
  | nil => intro n ids name v h; exact Or.inl h
  | cons folder rest ih =>
    intro n ids name v h
    simp only [mkFolderOps] at h
    rcases ih (n + 1) (alSet ids folder.folder_name n) name v h with h1 | h1
    · by_cases hx : name = folder.folder_name
      · subst hx
        rw [alGet_alSet_self] at h1
        cases h1
        right
        simp only [List.length_cons]
        omega
      · rw [alGet_alSet_ne ids n hx] at h1
        exact Or.inl h1
    · right
      simp only [List.length_cons]
      omega

/-- Specification of the move-batch pass: counts, sequential ids, and
dependencies drawn solely from the folder-id map. -/
theorem mkMoveOps_spec (proposal : RestructureProposal)
    (fids : List (String × Nat)) :
    ∀ (gs : List (String × List PageMove)) (n : Nat),
      (mkMoveOps proposal fids gs n).1.length = gs.length ∧
      (mkMoveOps proposal fids gs n).2 = n + gs.length ∧
      (∀ k (hk : k < (mkMoveOps proposal fids gs n).1.length),
        ((mkMoveOps proposal fids gs n).1.get ⟨k, hk⟩).operation_id = n + k) ∧
      (∀ op ∈ (mkMoveOps proposal fids gs n).1,
        op.operation_type = "restructure" ∧
        n ≤ op.operation_id ∧ op.operation_id < n + gs.length ∧
        ∀ d ∈ op.depends_on, ∃ nm, alGet fids nm = some d) := by
  intro gs
  induction gs with
  | nil =>
    intro n
    exact ⟨rfl, rfl, fun k hk => absurd hk (by simp [mkMoveOps]),
      fun op hop => absurd hop (by simp [mkMoveOps])⟩
  | cons g rest ih =>
    intro n
    obtain ⟨gname, gmoves⟩ := g
    obtain ⟨ih1, ih2, ih3, ih4⟩ := ih (n + 1)
    refine ⟨?_, ?_, ?_, ?_⟩
    · simp only [mkMoveOps, List.length_cons, ih1]
    · simp only [mkMoveOps, List.length_cons]
      rw [ih2]
      omega
    · intro k hk
      simp only [mkMoveOps] at hk ⊢
      cases k with
      | zero => rfl
      | succ k =>
        simp only [List.length_cons] at hk
        have hk' : k < (mkMoveOps proposal fids rest (n + 1)).1.length := by omega
        have := ih3 k hk'
        simp only [List.get_cons_succ]
        rw [this]
        omega
    · intro op hop
      simp only [mkMoveOps, List.mem_cons] at hop
      rcases hop with rfl | hop
      · refine ⟨rfl, le_refl n, by simp [List.length_cons], ?_⟩
        intro d hd
        simp only at hd
        cases hf : alGet fids gname with
        | none => rw [hf] at hd; simp at hd
        | some fid =>
          rw [hf] at hd
          simp only [List.mem_singleton] at hd
          subst hd
          exact ⟨gname, hf⟩
      · obtain ⟨t1, t2, t3, t4⟩ := ih4 op hop
        refine ⟨t1, by omega, ?_, t4⟩
        simp only [List.length_cons]
        omega

/-- Specification of the archive pass: counts, sequential ids, the
dependency sources, and the containments needed by the archive
invariant. -/
theorem mkArchiveOps_spec (mids : List Nat) (afid : Option Nat) :
    ∀ (ams : List ArchiveMove) (n : Nat),
      (mkArchiveOps mids afid ams n).1.length = ams.length ∧
      (mkArchiveOps mids afid ams n).2 = n + ams.length ∧
      (∀ k (hk : k < (mkArchiveOps mids afid ams n).1.length),
        ((mkArchiveOps mids afid ams n).1.get ⟨k, hk⟩).operation_id = n + k) ∧
      (∀ op ∈ (mkArchiveOps mids afid ams n).1,
        op.operation_type = "archive" ∧
        n ≤ op.operation_id ∧ op.operation_id < n + ams.length ∧
        (∀ d ∈ op.depends_on, d ∈ mids ∨ afid = some d) ∧
        (∀ fid, afid = some fid → fid ∈ op.depends_on) ∧
        (∀ d ∈ mids, d ∈ op.depends_on)) := by
  intro ams
  induction ams with
  | nil =>
    intro n
    exact ⟨rfl, rfl, fun k hk => absurd hk (by simp [mkArchiveOps]),
      fun op hop => absurd hop (by simp [mkArchiveOps])⟩
  | cons am rest ih =>
    intro n
    obtain ⟨ih1, ih2, ih3, ih4⟩ := ih (n + 1)
    refine ⟨?_, ?_, ?_, ?_⟩
    · simp only [mkArchiveOps, List.length_cons, ih1]
    · simp only [mkArchiveOps, List.length_cons]
      rw [ih2]
      omega
    · intro k hk
      simp only [mkArchiveOps] at hk ⊢
      cases k with
      | zero => rfl
      | succ k =>
        simp only [List.length_cons] at hk
        have hk' : k < (mkArchiveOps mids afid rest (n + 1)).1.length := by omega
        have := ih3 k hk'
        simp only [List.get_cons_succ]
        rw [this]
        omega
    · intro op hop
      simp only [mkArchiveOps, List.mem_cons] at hop
      rcases hop with rfl | hop
      · refine ⟨rfl, le_refl n, by simp [List.length_cons], ?_, ?_, ?_⟩
        · intro d hd
          simp only at hd
          cases afid with
          | none => exact Or.inl hd
          | some fid =>
            simp only [List.mem_append, List.mem_singleton] at hd
            rcases hd with hd | hd
            · exact Or.inl hd
            · exact Or.inr (by rw [hd])
        · intro fid hfid
          subst hfid
          simp
        · intro d hd
          cases afid with
          | none => exact hd
          | some fid => exact List.mem_append_left _ hd
      · obtain ⟨t1, t2, t3, t4, t5, t6⟩ := ih4 op hop
        refine ⟨t1, by omega, ?_, t4, t5, t6⟩
        simp only [List.length_cons]
        omega

/-- Specification of the link pass: counts, sequential ids, and
dependencies drawn solely from the move-operation ids. -/
theorem mkLinkOps_spec (mids : List Nat) :
    ∀ (ls : List LinkSuggestion) (n : Nat),
      (mkLinkOps mids ls n).1.length = ls.length ∧
      (mkLinkOps mids ls n).2 = n + ls.length ∧
      (∀ k (hk : k < (mkLinkOps mids ls n).1.length),
        ((mkLinkOps mids ls n).1.get ⟨k, hk⟩).operation_id = n + k) ∧
      (∀ op ∈ (mkLinkOps mids ls n).1,
        op.operation_type = "add_link" ∧
        n ≤ op.operation_id ∧ op.operation_id < n + ls.length ∧
        op.depends_on = mids) := by
  intro ls
  induction ls with
  | nil =>
    intro n
    exact ⟨rfl, rfl, fun k hk => absurd hk (by simp [mkLinkOps]),
      fun op hop => absurd hop (by simp [mkLinkOps])⟩
  | cons sg rest ih =>
    intro n
    obtain ⟨ih1, ih2, ih3, ih4⟩ := ih (n + 1)
    refine ⟨?_, ?_, ?_, ?_⟩
    · simp only [mkLinkOps, List.length_cons, ih1]
    · simp only [mkLinkOps, List.length_cons]
      rw [ih2]
      omega
    · intro k hk
      simp only [mkLinkOps] at hk ⊢
      cases k with
      | zero => rfl
      | succ k =>
        simp only [List.length_cons] at hk
        have hk' : k < (mkLinkOps mids rest (n + 1)).1.length := by omega
        have := ih3 k hk'
        simp only [List.get_cons_succ]
        rw [this]
        omega
    · intro op hop
      simp only [mkLinkOps, List.mem_cons] at hop
      rcases hop with rfl | hop
      · exact ⟨rfl, le_refl n, by simp [List.length_cons], rfl⟩
      · obtain ⟨t1, t2, t3, t4⟩ := ih4 op hop
        refine ⟨t1, by omega, ?_, t4⟩
        simp only [List.length_cons]
        omega

/-- Concatenating two blocks of sequentially numbered operations
yields a sequentially numbered list. -/
theorem seq_append {A B : List PlannedOperation} {n : Nat}
    (hA : ∀ k (hk : k < A.length), (A.get ⟨k, hk⟩).operation_id = n + k)
    (hB : ∀ k (hk : k < B.length),
      (B.get ⟨k, hk⟩).operation_id = n + A.length + k) :
    ∀ k (hk : k < (A ++ B).length),
      ((A ++ B).get ⟨k, hk⟩).operation_id = n + k := by
  induction A generalizing n with
  | nil =>
    intro k hk
    simp only [List.nil_append] at hk ⊢
    have := hB k hk
    simp only [List.length_nil] at this
    omega
  | cons a A' ih =>
    intro k hk
    cases k with
    | zero =>
      have := hA 0 (by simp)
      simpa using this
    | succ k =>
      have hA' : ∀ k (hk : k < A'.length),
          (A'.get ⟨k, hk⟩).operation_id = (n + 1) + k := by
        intro j hj
        have := hA (j + 1) (by simp only [List.length_cons]; omega)
        simp only [List.get_cons_succ] at this
        omega
      have hB' : ∀ k (hk : k < B.length),
          (B.get ⟨k, hk⟩).operation_id = (n + 1) + A'.length + k := by
        intro j hj
        have := hB j hj
        simp only [List.length_cons] at this
        omega
      simp only [List.cons_append, List.length_cons] at hk ⊢
      have := ih hA' hB' k (by simpa using hk)
      simp only [List.get_cons_succ]
      omega

/-- C8: in every plan built by `create_plan`, the `create_folder`
operations come first (the operations list is the folder block
followed by operations none of which is a `create_folder`), and every
listed dependency is the operation id of a strictly earlier operation
in the list. -/
theorem C8_dependencies_backward (proposal : RestructureProposal) :
    (∃ rest, (OperationPlanner.create_plan proposal).operations =
        (OperationPlanner.create_plan proposal).folder_operations ++ rest ∧
      (∀ op ∈ (OperationPlanner.create_plan proposal).folder_operations,
        op.operation_type = "create_folder") ∧
      (∀ op ∈ rest, op.operation_type ≠ "create_folder")) ∧
    ∀ i (hi : i < (OperationPlanner.create_plan proposal).operations.length),
      ∀ d ∈ ((OperationPlanner.create_plan proposal).operations.get
        ⟨i, hi⟩).depends_on,
        ∃ j, ∃ hj : j < (OperationPlanner.create_plan proposal).operations.length,
          j < i ∧
          ((OperationPlanner.create_plan proposal).operations.get
            ⟨j, hj⟩).operation_id = d := by
  set F := mkFolderOps proposal proposal.folders_to_create 0 [] with hF
  set G := movesByFolder proposal.pages_to_move with hG
  set M := mkMoveOps proposal F.2.1 G F.2.2 with hM
  set mids := M.1.map PlannedOperation.operation_id with hmids
  set afid := alGet F.2.1 "99-Archive" with hafid
  set A := mkArchiveOps mids afid proposal.folders_to_archive M.2 with hA
  set L := mkLinkOps mids proposal.link_suggestions A.2 with hL
  have hops0 : (OperationPlanner.create_plan proposal).operations =
      ((F.1 ++ M.1) ++ A.1) ++ L.1 := by
    rw [hL, hA, hmids, hafid, hM, hG, hF]
    rfl
  have hops : (OperationPlanner.create_plan proposal).operations =
      F.1 ++ (M.1 ++ (A.1 ++ L.1)) := by
    rw [hops0, List.append_assoc, List.append_assoc]
  have hfo : (OperationPlanner.create_plan proposal).folder_operations =
      F.1 := by
    rw [hF]
    rfl
  obtain ⟨f1, f2, f3, f4⟩ :=
    mkFolderOps_spec proposal proposal.folders_to_create 0 []
  rw [← hF] at f1 f2 f3 f4
  obtain ⟨m1, m2, m3, m4⟩ := mkMoveOps_spec proposal F.2.1 G F.2.2
  rw [← hM] at m1 m2 m3 m4
  obtain ⟨a1, a2, a3, a4⟩ :=
    mkArchiveOps_spec mids afid proposal.folders_to_archive M.2
  rw [← hA] at a1 a2 a3 a4
  obtain ⟨l1, l2, l3, l4⟩ := mkLinkOps_spec mids proposal.link_suggestions A.2
  rw [← hL] at l1 l2 l3 l4
  have hmidlt : ∀ d ∈ mids, d < M.2 := by
    intro d hd
    rw [hmids] at hd
    obtain ⟨mop, hmop, rfl⟩ := List.mem_map.mp hd
    have := (m4 mop hmop).2.2.1
    omega
  have hafidlt : ∀ v, afid = some v → v < F.2.2 := by
    intro v hv
    rw [hafid, hF] at hv
    rcases mkFolderOps_idmap proposal proposal.folders_to_create 0 []
        "99-Archive" v hv with h | h
    · simp [alGet] at h
    · omega
  have hdep : ∀ op ∈ F.1 ++ (M.1 ++ (A.1 ++ L.1)),
      ∀ d ∈ op.depends_on, d < op.operation_id := by
    intro op hop d hd
    rcases List.mem_append.mp hop with hop | hop
    · rw [(f4 op hop).2.1] at hd
      simp at hd
    rcases List.mem_append.mp hop with hop | hop
    · obtain ⟨-, hle, -, hdsrc⟩ := m4 op hop
      obtain ⟨nm, hnm⟩ := hdsrc d hd
      rw [hF] at hnm
      rcases mkFolderOps_idmap proposal proposal.folders_to_create 0 []
          nm d hnm with h | h
      · simp [alGet] at h
      · omega
    rcases List.mem_append.mp hop with hop | hop
    · obtain ⟨-, hle, -, hdsrc, -, -⟩ := a4 op hop
      rcases hdsrc d hd with h | h
      · have := hmidlt d h
        omega
      · have := hafidlt d h
        omega
    · obtain ⟨-, hle, -, hdeq⟩ := l4 op hop
      rw [hdeq] at hd
      have := hmidlt d hd
      omega
  have hid : ∀ k (hk : k < (F.1 ++ (M.1 ++ (A.1 ++ L.1))).length),
      ((F.1 ++ (M.1 ++ (A.1 ++ L.1))).get ⟨k, hk⟩).operation_id = 0 + k := by
    refine seq_append (fun k hk => f3 k hk) ?_
    refine seq_append (fun k hk => by have := m3 k hk; omega) ?_
    refine seq_append (fun k hk => by have := a3 k hk; omega) ?_
    intro k hk
    have := l3 k hk
    omega
  constructor
  · refine ⟨M.1 ++ (A.1 ++ L.1), by rw [hops, hfo], ?_, ?_⟩
    · rw [hfo]
      intro op hop
      exact (f4 op hop).1
    · intro op hop
      rcases List.mem_append.mp hop with hop | hop
      · rw [(m4 op hop).1]
        decide
      rcases List.mem_append.mp hop with hop | hop
      · rw [(a4 op hop).1]
        decide
      · rw [(l4 op hop).1]
        decide
  · rw [hops]
    intro i hi d hd
    have hii := hid i hi
    have hdi : d < i := by
      have := hdep _ (List.get_mem _ _ _) d hd
      omega
    refine ⟨d, by omega, hdi, ?_⟩
    have := hid d (by omega)
    omega

/-- C4: when `99-Archive` is among the folders to create, every
archive operation of the plan depends on the `create_folder` operation
for `99-Archive` and on every move (restructure) operation id. -/
theorem C4_archive_dependencies (proposal : RestructureProposal)
    (hmem : "99-Archive" ∈ proposal.folders_to_create.map
      FolderCreation.folder_name) :
    ∃ fop ∈ (OperationPlanner.create_plan proposal).folder_operations,
      fop.operation_type = "create_folder" ∧
      ("folder_name", "99-Archive") ∈ fop.operation_data ∧
      ∀ aop ∈ (OperationPlanner.create_plan proposal).archive_operations,
        fop.operation_id ∈ aop.depends_on ∧
        ∀ mop ∈ (OperationPlanner.create_plan proposal).move_operations,
          mop.operation_id ∈ aop.depends_on := by
  have hfo : (OperationPlanner.create_plan proposal).folder_operations =
      (mkFolderOps proposal proposal.folders_to_create 0 []).1 := rfl
  have hmo : (OperationPlanner.create_plan proposal).move_operations =
      (mkMoveOps proposal
        (mkFolderOps proposal proposal.folders_to_create 0 []).2.1
        (movesByFolder proposal.pages_to_move)
        (mkFolderOps proposal proposal.folders_to_create 0 []).2.2).1 := rfl
  have hao : (OperationPlanner.create_plan proposal).archive_operations =
      (mkArchiveOps
        (List.map PlannedOperation.operation_id
          (mkMoveOps proposal
            (mkFolderOps proposal proposal.folders_to_create 0 []).2.1
            (movesByFolder proposal.pages_to_move)
            (mkFolderOps proposal proposal.folders_to_create 0 []).2.2).1)
        (alGet (mkFolderOps proposal proposal.folders_to_create 0 []).2.1
          "99-Archive")
        proposal.folders_to_archive
        (mkMoveOps proposal
          (mkFolderOps proposal proposal.folders_to_create 0 []).2.1
          (movesByFolder proposal.pages_to_move)
          (mkFolderOps proposal proposal.folders_to_create 0 []).2.2).2).1 := rfl
  obtain ⟨v, hv, fop, hfop, hid, hty, hdata⟩ :=
    mkFolderOps_ids proposal proposal.folders_to_create 0 [] "99-Archive" hmem
  refine ⟨fop, by rw [hfo]; exact hfop, hty, hdata, ?_⟩
  intro aop haop
  rw [hao] at haop
  obtain ⟨-, -, -, -, hfid, hmids⟩ :=
    ((mkArchiveOps_spec
      (List.map PlannedOperation.operation_id
        (mkMoveOps proposal
          (mkFolderOps proposal proposal.folders_to_create 0 []).2.1
          (movesByFolder proposal.pages_to_move)
          (mkFolderOps proposal proposal.folders_to_create 0 []).2.2).1)
      (alGet (mkFolderOps proposal proposal.folders_to_create 0 []).2.1
        "99-Archive")
      proposal.folders_to_archive
      (mkMoveOps proposal
        (mkFolderOps proposal proposal.folders_to_create 0 []).2.1
        (movesByFolder proposal.pages_to_move)
        (mkFolderOps proposal proposal.folders_to_create 0 []).2.2).2).2.2.2
      aop haop)
  refine ⟨?_, ?_⟩
  · rw [hid]
    exact hfid v hv
  · intro mop hmop
    rw [hmo] at hmop
    exact hmids _ (List.mem_map.mpr ⟨mop, hmop, rfl⟩)

/-- Witness for C4 at the fixture proposal, with the membership
hypothesis discharged by evaluation. -/
theorem C4_witness :
    ∃ fop ∈ (OperationPlanner.create_plan fixtureProposal).folder_operations,
      fop.operation_type = "create_folder" ∧
      ("folder_name", "99-Archive") ∈ fop.operation_data ∧
      ∀ aop ∈ (OperationPlanner.create_plan fixtureProposal).archive_operations,
        fop.operation_id ∈ aop.depends_on ∧
        ∀ mop ∈ (OperationPlanner.create_plan fixtureProposal).move_operations,
          mop.operation_id ∈ aop.depends_on :=
  C4_archive_dependencies fixtureProposal (by decide)

/-- Witness for C8 at the fixture proposal: the archive operation (at
index 3) depends on id 1, the id of the strictly earlier `99-Archive`
creation. -/
theorem C8_witness :
    ∃ j, ∃ hj : j <
        (OperationPlanner.create_plan fixtureProposal).operations.length,
      j < 3 ∧
      ((OperationPlanner.create_plan fixtureProposal).operations.get
        ⟨j, hj⟩).operation_id = 1 :=
  (C8_dependencies_backward fixtureProposal).2 3 (by decide) 1 (by decide)
